import Mathlib

/-!
Verification of the two conversion scripts of this repository:
scripts/lookuptable.py (pipeline B, the HMM-state lookup-table builder) and
scripts/convert_rwthasr.py (pipeline A, the CART-example to sample converter).

The Python code is shallowly embedded: dicts become association lists that
keep insertion order, Python sets become lists observed only through
membership, emptiness and subset tests (exactly the operations the scripts
perform on them), machine integers become Int/Nat, and code that can raise
an exception returns Except PyErr.  Each definition carries a comment naming
the source function it embeds.
-/

namespace Trainc

/-- Kinds of Python exceptions the embedded code can raise. -/
inductive PyErr where
  | indexError
  | assertionError
  | valueError
  | attributeError
  | keyError
deriving DecidableEq

deriving instance DecidableEq for Except

/-- Association-list lookup: Python dict read access (d.get(k) / k in d). -/
def alFind {α β : Type} [DecidableEq α] : List (α × β) → α → Option β
  | [], _ => none
  | (k, v) :: rest, key => if k = key then some v else alFind rest key

/-- Association-list update: Python dict assignment d[k] = v (insertion order kept,
an existing key is overwritten in place). -/
def alSet {α β : Type} [DecidableEq α] : List (α × β) → α → β → List (α × β)
  | [], key, v => [(key, v)]
  | (k, w) :: rest, key, v => if k = key then (k, v) :: rest else (k, w) :: alSet rest key v

/-- Python set.add on the list representation of a set. -/
def setAdd (l : List String) (s : String) : List String := if s ∈ l then l else l ++ [s]

/-- Python set.update (in-place union). -/
def setUnion (a b : List String) : List String := b.foldl setAdd a

/-- Python a.issubset(b) on list-represented sets. -/
def pySubset (a b : List String) : Bool := a.all (fun x => decide (x ∈ b))

/-- Python list indexing with negative-index wrap-around; none is an IndexError. -/
def pyIdx (len : Nat) (i : Int) : Option Nat :=
  if 0 ≤ i then (if i < (len : Int) then some i.toNat else none)
  else (if 0 ≤ (len : Int) + i then some ((len : Int) + i).toNat else none)

/-- Decimal digit characters, used by the embedding of %d formatting. -/
def digitChar : Nat → Char
  | 0 => '0'
  | 1 => '1'
  | 2 => '2'
  | 3 => '3'
  | 4 => '4'
  | 5 => '5'
  | 6 => '6'
  | 7 => '7'
  | 8 => '8'
  | 9 => '9'
  | _ => '*'

/-- Numeric value of a decimal digit character. -/
def digitVal (c : Char) : Nat := c.toNat - 48

/-- Little-endian decimal digits of a number (fuel-based structural recursion;
fuel n is always enough for n itself). -/
def natDigitsAux : Nat → Nat → List Char
  | 0, _ => []
  | _ + 1, 0 => []
  | fuel + 1, n + 1 => digitChar ((n + 1) % 10) :: natDigitsAux fuel ((n + 1) / 10)

/-- Embedding of Python "%d" on a natural number. -/
def pyNatRepr (n : Nat) : String := if n = 0 then "0" else ⟨(natDigitsAux n n).reverse⟩

/-- Embedding of Python "%d" / str() on an integer. -/
def pyIntRepr (i : Int) : String :=
  if i < 0 then ⟨'-' :: (pyNatRepr i.natAbs).data⟩ else pyNatRepr i.toNat

/-- Embedding of Python "%f" on an integer-valued weight: six zero decimals. -/
def pyFloatRepr (i : Int) : String := pyIntRepr i ++ ".000000"

/-- All-digit check plus decimal value: the core of Python int(). -/
def parseNat (l : List Char) : Option Nat :=
  if l.isEmpty then none
  else if l.all Char.isDigit then some (l.foldl (fun a c => 10 * a + digitVal c) 0) else none

/-- Embedding of Python int() on a string (optional minus sign, decimal digits). -/
def pyInt (s : String) : Except PyErr Int :=
  match s.data with
  | '-' :: rest =>
    match parseNat rest with
    | some n => .ok (-(n : Int))
    | none => .error .valueError
  | l =>
    match parseNat l with
    | some n => .ok (n : Int)
    | none => .error .valueError

/-- Accumulator loop for whitespace splitting; cur holds the current word reversed. -/
def wordsAux : List Char → List Char → List (List Char)
  | [], cur => if cur.isEmpty then [] else [cur.reverse]
  | c :: rest, cur =>
    if c.isWhitespace then
      if cur.isEmpty then wordsAux rest [] else cur.reverse :: wordsAux rest []
    else wordsAux rest (c :: cur)

/-- Embedding of Python str.split() with no argument: split on runs of whitespace,
dropping empty pieces. -/
def pysplit (s : String) : List String := (wordsAux s.data []).map (fun l => ⟨l⟩)

/-- Prefix test on character lists. -/
def charsPre : List Char → List Char → Bool
  | [], _ => true
  | _ :: _, [] => false
  | a :: as, b :: bs => a = b && charsPre as bs

/-- Substring test on character lists. -/
def charsSub (sub : List Char) : List Char → Bool
  | [] => sub.isEmpty
  | b :: bs => charsPre sub (b :: bs) || charsSub sub bs

/-- Embedding of the Python substring test (sub in s). -/
def strContains (sub s : String) : Bool := charsSub sub.data s.data

/-- Embedding of " ".join(l). -/
def joinSp (l : List String) : String := String.intercalate " " l

/-- Python slice l[0:i] (negative i counts from the end, clamped at 0). -/
def pySliceTo (l : List String) (i : Int) : List String :=
  if 0 ≤ i then l.take i.toNat else l.take (((l.length : Int) + i).toNat)

/-- Python slice l[i:] (negative i counts from the end, clamped at 0). -/
def pySliceFrom (l : List String) (i : Int) : List String :=
  if 0 ≤ i then l.drop i.toNat else l.drop (((l.length : Int) + i).toNat)

namespace Lookup

/-- scripts/lookuptable.py, class SymbolTable: a dict from symbol to integer key. -/
structure SymbolTable where
  dict_ : List (String × Int)
deriving DecidableEq

/-- SymbolTable.find (lookuptable.py line 38): dict_.get(symbol, -1). -/
def SymbolTable.find (t : SymbolTable) (symbol : String) : Int :=
  (alFind t.dict_ symbol).getD (-1)

/-- Prefix match of the part of name_re after an underscore:
digits, then a literal dot, then at least one digit (trailing text is ignored
because re.match only anchors at the start).  Returns the first digit group. -/
def tailNum (l : List Char) : Option (List Char) :=
  let d := l.takeWhile Char.isDigit
  match l.drop d.length with
  | '.' :: c :: _ => if d.isEmpty then none else if c.isDigit then some d else none
  | _ => none

/-- Greedy re.match of name_re (lookuptable.py line 48): the leading group takes
as much as possible, so the split happens at the rightmost underscore whose tail
matches digits-dot-digits.  Returns (group 1, group 2). -/
def nameMatch : List Char → Option (List Char × List Char)
  | [] => none
  | c :: rest =>
    match nameMatch rest with
    | some (ctr, d) => some (c :: ctr, d)
    | none => if c = '_' then (tailNum rest).map (fun d => (([] : List Char), d)) else none

/-- Decimal value of the digit group captured by name_re. -/
def digitsToNat (l : List Char) : Nat := l.foldl (fun a c => 10 * a + digitVal c) 0

/-- scripts/lookuptable.py, class HmmStateModels.  center_idx_ maps each HMM state
(list position) to a dict from center phone to the model groups registered for it;
models_ maps each group index to a dict from local model index to the pair of
left/right context sets (sets are lists observed through membership only). -/
structure HmmStateModels where
  center_idx_ : List (List (String × List Nat))
  models_ : List (List (Int × (List String × List String)))
  model_syms_ : SymbolTable
  ci_phones : List String
  empty_context : List String
deriving DecidableEq

/-- The while loop of _addHmmIndex (lines 107-108): append empty dicts until the
state index is in range (a negative state appends nothing). -/
def padSlots (ci : List (List (String × List Nat))) (state : Int) :
    List (List (String × List Nat)) :=
  if (ci.length : Int) ≤ state then ci ++ List.replicate (state + 1 - ci.length).toNat [] else ci

/-- One iteration of the for loop of _addHmmIndex (lines 111-114): create the
center-phone entry if missing and append the fresh group index. -/
def registerCenter (ci : List (List (String × List Nat))) (pos : Nat) (idx : Nat)
    (c : String) : List (List (String × List Nat)) :=
  let d := ci.getD pos []
  ci.set pos (alSet d c (((alFind d c).getD []) ++ [idx]))

/-- The for loop of _addHmmIndex over all center phones; indexing
self.center_idx_[state] can raise IndexError for a negative state. -/
def centerLoop (state : Int) (idx : Nat) :
    List (List (String × List Nat)) → List String →
    Except PyErr (List (List (String × List Nat)))
  | ci, [] => .ok ci
  | ci, c :: cs =>
    match pyIdx ci.length state with
    | none => .error .indexError
    | some pos => centerLoop state idx (registerCenter ci pos idx c) cs

/-- HmmStateModels._addHmmIndex (lines 106-115): grow the per-state table, append
a fresh empty model group and register its index under every center phone. -/
def addHmmIndex (m : HmmStateModels) (center_phones : List String) (state : Int) :
    Except PyErr (HmmStateModels × Nat) :=
  match centerLoop state m.models_.length (padSlots m.center_idx_ state) center_phones with
  | .error e => .error e
  | .ok ci2 =>
    .ok ({ m with center_idx_ := ci2, models_ := m.models_ ++ [[]] }, m.models_.length)

/-- The context-collapsing step of _addModel (lines 79-86): each side whose
phones are all context independent is replaced by the empty-context set, and a
fully context-independent center clears both sides. -/
def contextPair (m : HmmStateModels) (left0 center_phones right0 : List String) :
    List String × List String :=
  let lc := if pySubset left0 m.ci_phones then m.empty_context else left0
  let rc := if pySubset right0 m.ci_phones then m.empty_context else right0
  if pySubset center_phones m.ci_phones then (([] : List String), ([] : List String))
  else (lc, rc)

/-- HmmStateModels._addModel (lines 71-87): parse the state name, register the
HMM index, resolve the model symbol (assert key > 0, offset -2), collapse
context-independent context groups, and store the context pair. -/
def addModel (m : HmmStateModels) (name : String) (context : List String) :
    Except PyErr HmmStateModels :=
  match nameMatch name.data with
  | none => .error .attributeError
  | some (_center, ds) =>
    let state : Int := (digitsToNat ds : Int) - 1
    let center_phones := pysplit (context.getD 1 "")
    match addHmmIndex m center_phones state with
    | .error e => .error e
    | .ok (m1, hmm_idx) =>
      let model_key := m1.model_syms_.find name
      if model_key ≤ 0 then .error .assertionError
      else
        let model_idx := model_key - 2
        let left0 := pysplit (context.getD 0 "")
        let right0 := pysplit (context.getD 2 "")
        let lrc := contextPair m1 left0 center_phones right0
        match pyIdx m1.models_.length (hmm_idx : Int) with
        | none => .error .indexError
        | some p =>
          .ok { m1 with models_ := m1.models_.set p (alSet (m1.models_.getD p []) model_idx lrc) }

/-- HmmStateModels.parseLogFile (lines 59-69) over pre-tokenized lines: each line
is the state name (first whitespace token) together with the list of
tag={body} groups extracted by group_re.findall; the three asserts on the
group count and tags are checked before _addModel runs. -/
def parseLogFile (m : HmmStateModels) :
    List (String × List (Int × String)) → Except PyErr HmmStateModels
  | [] => .ok m
  | (name, groups) :: rest =>
    if groups.length = 3 ∧ (groups.getD 0 (0, "")).1 = -1 ∧ (groups.getD 1 (0, "")).1 = 0 ∧
        (groups.getD 2 (0, "")).1 = 1 then
      match addModel m name (groups.map Prod.snd) with
      | .error e => .error e
      | .ok m2 => parseLogFile m2 rest
    else .error .assertionError

/-- Inner loop of HmmStateModels.find (lines 94-101) over one flattened list of
(local model index, context pair) entries, threading the found accumulator.
An entry matches either with no context constraints at all (empty query symbols
and empty context sets, Python falsiness of strings and sets) or by membership
of both query symbols; a second match while found is nonnegative is the
assert found < 0 failure. -/
def findScan (left right : String) :
    Int → List (Int × (List String × List String)) → Except PyErr Int
  | found, [] => .ok found
  | found, e :: rest =>
    if left = "" ∧ right = "" ∧ e.2.1 = [] ∧ e.2.2 = [] then
      (if found < 0 then findScan left right e.1 rest else .error .assertionError)
    else if left ∈ e.2.1 ∧ right ∈ e.2.2 then
      (if found < 0 then findScan left right e.1 rest else .error .assertionError)
    else findScan left right found rest

/-- Outer loop of HmmStateModels.find (lines 92-93): fetch each candidate model
group (self.models_[i]) and scan it. -/
def findGroups (m : HmmStateModels) (left right : String) :
    Int → List Nat → Except PyErr Int
  | found, [] => .ok found
  | found, i :: rest =>
    if i < m.models_.length then
      match findScan left right found (m.models_.getD i []) with
      | .error e => .error e
      | .ok found2 => findGroups m left right found2 rest
    else .error .indexError

/-- HmmStateModels.find (lines 89-104): index the per-state table (possible
IndexError), fetch the candidate group list for the center phone (default [])
and scan all groups starting from found = -1. -/
def HmmStateModels.find (m : HmmStateModels) (left center right : String) (state : Int) :
    Except PyErr Int :=
  match pyIdx m.center_idx_.length state with
  | none => .error .indexError
  | some pos => findGroups m left right (-1) ((alFind (m.center_idx_.getD pos []) center).getD [])

/-- The flattened candidate list that find scans for a given (center, state slot):
all entries of all groups registered under the center phone, in scan order. -/
def scanList (m : HmmStateModels) (center : String) (pos : Nat) :
    List (Int × (List String × List String)) :=
  ((((alFind (m.center_idx_.getD pos []) center).getD []).map
      (fun i => m.models_.getD i [])).flatten)

/-- The match test of find as a predicate on one stored context pair. -/
def qmatch (left right : String) (p : List String × List String) : Bool :=
  decide (left = "" ∧ right = "" ∧ p.1 = [] ∧ p.2 = []) || decide (left ∈ p.1 ∧ right ∈ p.2)

/-- scripts/lookuptable.py, class AllophoneState: the parsed fields of one
allophone-state descriptor (center phone, two context symbols, 0-based HMM
state, initial/final markers). -/
structure AllophoneState where
  center : String
  context : List String
  state : Int
  initial : Bool
  final : Bool
deriving DecidableEq

/-- AllophoneState.phoneSymbol (lines 146-150). -/
def AllophoneState.phoneSymbol (a : AllophoneState) : String :=
  (a.center ++ (if a.initial then "@i" else "")) ++ (if a.final then "@f" else "")

/-- Observable outcome of one iteration of the main loop: the sequence of
models.find calls made (left, center, right, state), the lines written to
standard error, and the line printed to standard output, if any. -/
structure LineResult where
  calls : List (String × String × String × Int)
  errs : List String
  out : Option String
deriving DecidableEq

/-- One iteration of the main loop of lookuptable.py (lines 164-180) on an
already parsed descriptor: choose the query per the ci-phone test, look up,
on a miss warn and retry once (same left/right, unmarked center) when the
descriptor is marked initial or final, then print the line plus index or an
error. -/
def processLine (models : HmmStateModels) (ci_phones : List String) (line : String)
    (a : AllophoneState) : Except PyErr LineResult :=
  let l := if a.center ∈ ci_phones then "" else a.context.getD 0 ""
  let c := if a.center ∈ ci_phones then a.center else a.phoneSymbol
  let r := if a.center ∈ ci_phones then "" else a.context.getD 1 ""
  match HmmStateModels.find models l c r a.state with
  | .error e => .error e
  | .ok m1 =>
    if m1 < 0 then
      let w := "[WARNING] not found: " ++ line
      if a.initial || a.final then
        match HmmStateModels.find models l a.center r a.state with
        | .error e => .error e
        | .ok m2 =>
          if m2 < 0 then
            .ok ⟨[(l, c, r, a.state), (l, a.center, r, a.state)],
                 [w, "[ERROR] cannot map " ++ line], none⟩
          else
            .ok ⟨[(l, c, r, a.state), (l, a.center, r, a.state)],
                 [w], some (line ++ " " ++ pyIntRepr m2)⟩
      else .ok ⟨[(l, c, r, a.state)], [w, "[ERROR] cannot map " ++ line], none⟩
    else .ok ⟨[(l, c, r, a.state)], [], some (line ++ " " ++ pyIntRepr m1)⟩

/-- The model construction of main (lines 153-161): a fresh HmmStateModels with
the state symbol table, the ci-phone list, the single-element empty-context
set, fed with the parsed state log. -/
def buildModels (state_syms : SymbolTable) (ci_phones : List String)
    (empty_context : String) (log : List (String × List (Int × String))) :
    Except PyErr HmmStateModels :=
  parseLogFile
    { center_idx_ := [], models_ := [], model_syms_ := state_syms,
      ci_phones := ci_phones, empty_context := [empty_context] } log

/-- The 1-based state number parsed from a state name by name_re (0 when the
name does not match; a matching name contributes state+1 slots). -/
def lineStateCount (name : String) : Nat :=
  match nameMatch name.data with
  | some (_, ds) => digitsToNat ds
  | none => 0

/-- A one-group, one-model state used to instantiate C1. -/
def mW1 : HmmStateModels :=
  ⟨[[("c", [0])]], [[(0, (["x"], ["y"]))]], ⟨[]⟩, [], ["si"]⟩

/-- The state symbol table of the C1 counterexample: the first state name has
key 1, so its model is stored at local index 1 - 2 = -1. -/
def tblX1 : SymbolTable := ⟨[("n1_1.0", 1), ("n2_1.0", 3)]⟩

/-- The state log of the C1 counterexample: two models under the same
(state 0, center c) key with identical context sets. -/
def logX1 : List (String × List (Int × String)) :=
  [("n1_1.0", [(-1, "x"), (0, "c"), (1, "y")]), ("n2_1.0", [(-1, "x"), (0, "c"), (1, "y")])]

/-- The HmmStateModels built from tblX1 and logX1. -/
def mX1 : HmmStateModels :=
  ⟨[[("c", [0, 1])]], [[(-1, (["x"], ["y"]))], [(1, (["x"], ["y"]))]], tblX1, [], ["si"]⟩

/-- A model state used to instantiate C2 and C3 (symbol a_1.0 has key 3). -/
def mW2 : HmmStateModels := ⟨[], [], ⟨[("a_1.0", 3)]⟩, ["si"], ["si"]⟩

/-- The state that addModel produces from mW2 on the spec scenario line
a_1.0 with groups si / a / si. -/
def mW2r : HmmStateModels :=
  ⟨[[("a", [0])]], [[(1, (["si"], ["si"]))]], ⟨[("a_1.0", 3)]⟩, ["si"], ["si"]⟩

/-- A model state with an empty symbol table for the assertion half of C3. -/
def mW3 : HmmStateModels := ⟨[], [], ⟨[]⟩, [], ["si"]⟩

/-- The state built for the C10 witness (one line, state 1, so one slot). -/
def mw10 : HmmStateModels :=
  ⟨[[("a", [0])]], [[(1, (["x"], ["y"]))]], ⟨[("a_1.0", 3)]⟩, [], ["si"]⟩

/-- The state symbol table of the C5 counterexample. -/
def tblX5 : SymbolTable := ⟨[("q_1.0", 3)]⟩

/-- The state log of the C5 counterexample: one model under (state 0, center q),
so center phone si has no candidate groups at all. -/
def logX5 : List (String × List (Int × String)) :=
  [("q_1.0", [(-1, "x"), (0, "q"), (1, "y")])]

/-- The HmmStateModels built from tblX5 and logX5. -/
def mX5 : HmmStateModels :=
  ⟨[[("q", [0])]], [[(1, (["x"], ["y"]))]], tblX5, ["si"], ["si"]⟩

/-- The parsed descriptor of the C5 counterexample: a context-independent
center phone si with nonempty original contexts a / b and the initial flag. -/
def aX5 : AllophoneState := ⟨"si", ["a", "b"], 0, true, false⟩

/-- The model state of the C5 witness: one model under (state 0, center a),
none under the marked symbol a@i. -/
def mW5 : HmmStateModels :=
  ⟨[[("a", [0])]], [[(1, (["x"], ["y"]))]], ⟨[("a_1.0", 3)]⟩, [], ["si"]⟩

/-- The parsed descriptor of the C5 witness: marked initial, center a not
context independent, contexts x / y. -/
def aW5 : AllophoneState := ⟨"a", ["x", "y"], 0, true, false⟩

end Lookup

namespace Convert

/-- scripts/convert_rwthasr.py, class SymbolTable: symbols_ maps integer key to
symbol, keys_ maps symbol to key (both dicts in insertion order). -/
structure SymbolTable where
  symbols_ : List (Int × String)
  keys_ : List (String × Int)
deriving DecidableEq

/-- SymbolTable.find (lines 164-167): keys_ lookup, -1 when absent. -/
def SymbolTable.find (t : SymbolTable) (symbol : String) : Int :=
  (alFind t.keys_ symbol).getD (-1)

/-- SymbolTable.read (lines 169-178) over the lines of the file: skip blank
lines, unpack exactly two whitespace tokens (more or fewer raise ValueError),
parse the key, skip key 0 (epsilon), store both directions. -/
def SymbolTable.read (t : SymbolTable) : List String → Except PyErr SymbolTable
  | [] => .ok t
  | line :: rest =>
    match pysplit line with
    | [] => SymbolTable.read t rest
    | [symbol, key] =>
      match pyInt key with
      | .error e => .error e
      | .ok k =>
        if k = 0 then SymbolTable.read t rest
        else SymbolTable.read
          { symbols_ := alSet t.symbols_ k symbol, keys_ := alSet t.keys_ symbol k } rest
    | _ => .error .valueError

/-- SymbolTable.write (lines 180-184) as the list of lines written: the constant
".eps 0" line, then one "symbol key" line per symbols_ entry in order. -/
def SymbolTable.write (t : SymbolTable) : List String :=
  ".eps 0" :: t.symbols_.map (fun p => p.2 ++ " " ++ pyIntRepr p.1)

/-- scripts/convert_rwthasr.py, class Sample (lines 190-209). -/
structure Sample where
  phone : String
  state : Int
  left_context : List String
  right_context : List String
  initial : Bool
  final : Bool
  weight : Int
  sum : List String
  sum2 : List String
deriving DecidableEq

/-- Sample.setData (lines 202-209): keep the weight, require exactly two matrix
rows, bisect the flat data at the column count and require both halves to have
exactly that length. -/
def Sample.setData (s : Sample) (nobs : Int) (ncol : Int) (nrow : Int)
    (data : List String) : Except PyErr Sample :=
  let s1 := { s with weight := nobs }
  if nrow = 2 then
    let dim := ncol
    let sum := pySliceTo data dim
    let sum2 := pySliceFrom data dim
    if (sum.length : Int) = dim then
      if (sum2.length : Int) = dim then .ok { s1 with sum := sum, sum2 := sum2 }
      else .error .assertionError
    else .error .assertionError
  else .error .assertionError

/-- scripts/convert_rwthasr.py, class Example (lines 37-43): the per-example
record built by the XML parser (property map, observation count, flat matrix
data with declared row/column counts). -/
structure Example where
  properties : List (String × String)
  nobs : Int
  data : List String
  nrows : Int
  ncol : Int
deriving DecidableEq

/-- Python dict indexing example.properties[key]: KeyError when absent. -/
def getProp (e : Example) (k : String) : Except PyErr String :=
  match alFind e.properties k with
  | some v => .ok v
  | none => .error .keyError

/-- scripts/convert_rwthasr.py, class Samples (lines 211-217). -/
structure Samples where
  samples : List Sample
  use_word_boundary : Bool
deriving DecidableEq

/-- Samples.setExample (lines 219-233): build the sample from the four required
properties, set the initial/final flags from the boundary property when
word-boundary mode is on, fill in the data and append. -/
def Samples.setExample (S : Samples) (e : Example) : Except PyErr Samples :=
  match getProp e "central" with
  | .error er => .error er
  | .ok central =>
    match getProp e "hmm-state" with
    | .error er => .error er
    | .ok hmmstate =>
      match pyInt hmmstate with
      | .error er => .error er
      | .ok st =>
        match getProp e "history[0]" with
        | .error er => .error er
        | .ok hist =>
          match getProp e "future[0]" with
          | .error er => .error er
          | .ok fut =>
            let sample : Sample := ⟨central, st, [hist], [fut], false, false, 0, [], []⟩
            match (if S.use_word_boundary then
                match getProp e "boundary" with
                | .error er => .error er
                | .ok b =>
                  Except.ok (if b = "begin-of-lemma" then { sample with initial := true }
                    else if b = "end-of-lemma" then { sample with final := true }
                    else if b = "single-phoneme-lemma" then
                      { sample with initial := true
                                    final := true }
                    else sample)
              else Except.ok sample : Except PyErr Sample) with
            | .error er => .error er
            | .ok sample2 =>
              match sample2.setData e.nobs e.ncol e.nrows e.data with
              | .error er => .error er
              | .ok s3 => .ok { S with samples := S.samples ++ [s3] }

/-- The assert loop of Samples.getGlobalProperties (lines 239-242). -/
def checkDims : List Sample → Nat → Nat → Nat → Except PyErr Unit
  | [], _, _, _ => .ok ()
  | s :: rest, dim, nl, nr =>
    if s.sum.length = dim then
      if s.left_context.length = nl then
        if s.right_context.length = nr then checkDims rest dim nl nr
        else .error .assertionError
      else .error .assertionError
    else .error .assertionError

/-- Samples.getGlobalProperties (lines 235-243): dimensions of the first sample
(IndexError on an empty collection), checked against every sample. -/
def Samples.getGlobalProperties (S : Samples) : Except PyErr (Nat × Nat × Nat) :=
  match S.samples with
  | [] => .error .indexError
  | s0 :: _ =>
    let dim := s0.sum.length
    let nl := s0.left_context.length
    let nr := s0.right_context.length
    match checkDims S.samples dim nl nr with
    | .error e => .error e
    | .ok _ => .ok (dim, nl, nr)

/-- Samples.writeSample (lines 252-258) as the line written for one sample. -/
def Samples.writeSample (s : Sample) : String :=
  s.phone ++ " " ++ pyIntRepr s.state ++ " " ++ joinSp s.left_context ++ " " ++
    joinSp s.right_context ++ " " ++ pyFloatRepr s.weight ++ " " ++
    joinSp s.sum ++ " " ++ joinSp s.sum2

/-- Samples.write (lines 245-250) as the list of lines written: the global
properties are computed (and all dimension asserts run) before the output file
is opened, so an assertion failure yields no output at all. -/
def Samples.write (S : Samples) : Except PyErr (List String) :=
  match S.getGlobalProperties with
  | .error e => .error e
  | .ok (dim, nl, nr) =>
    .ok (("1 " ++ pyIntRepr dim ++ " " ++ pyIntRepr nl ++ " " ++ pyIntRepr nr) ::
      S.samples.map Samples.writeSample)

/-- scripts/convert_rwthasr.py, class SymbolConverter (lines 261-268); the
initial/final phone sets and the non-word-boundary set are lists observed
through membership, phone_classes is a dict from base phone to the list of
its boundary variants. -/
structure SymbolConverter where
  mapping : List (String × String)
  initial_phones : List String
  final_phones : List String
  phone_classes : List (String × List String)
  use_word_boundary : Bool
  non_wb : List String
deriving DecidableEq

/-- A fresh SymbolConverter (the constructor, lines 262-268). -/
def SymbolConverter.init : SymbolConverter := ⟨[], [], [], [], false, []⟩

/-- The phone_classes update of setSymbols (lines 279-281): create the entry if
missing and append the variant. -/
def classAppend (t : List (String × List String)) (k s : String) :
    List (String × List String) :=
  alSet t k (((alFind t k).getD []) ++ [s])

/-- The base phone s.split("@")[0]: the prefix before the first at-sign. -/
def basePhoneOf (s : String) : String := ⟨s.data.takeWhile (fun ch => ch ≠ '@')⟩

/-- The body of the setSymbols loop (lines 272-281) for one symbol. -/
def setSymbolsStep (c : SymbolConverter) (s : String) : SymbolConverter :=
  let c1 := if strContains "@i" s then { c with initial_phones := setAdd c.initial_phones s }
    else c
  let c2 := if strContains "@f" s then { c1 with final_phones := setAdd c1.final_phones s }
    else c1
  if basePhoneOf s ≠ s then
    { c2 with phone_classes := classAppend c2.phone_classes (basePhoneOf s) s }
  else c2

/-- SymbolConverter.setSymbols (lines 270-281) over the symbol list: collect
symbols containing "@i" and "@f" into the initial/final sets and group every
symbol containing "@" under its base phone. -/
def SymbolConverter.setSymbols (c : SymbolConverter) (syms : List String) :
    SymbolConverter :=
  syms.foldl setSymbolsStep c

/-- Membership of a symbol under a key of the phone-class map. -/
def classMem (t : List (String × List String)) (k s : String) : Prop :=
  ∃ l, alFind t k = some l ∧ s ∈ l

/-- SymbolConverter.setUseWordBoundary (lines 283-287): record the flag and the
excluded set and add all excluded phones to both boundary sets. -/
def SymbolConverter.setUseWordBoundary (c : SymbolConverter) (use_wb : Bool)
    (non_wb : List String) : SymbolConverter :=
  { c with use_word_boundary := use_wb
           non_wb := non_wb
           initial_phones := setUnion c.initial_phones non_wb
           final_phones := setUnion c.final_phones non_wb }

/-- SymbolConverter.writeInitialPhones (lines 316-317) as the list of lines
written: one phone of the set per line. -/
def SymbolConverter.writeInitialPhones (c : SymbolConverter) : List String :=
  c.initial_phones

/-- SymbolConverter.writeFinalPhones (lines 319-320) as the list of lines written. -/
def SymbolConverter.writeFinalPhones (c : SymbolConverter) : List String :=
  c.final_phones

/-- scripts/convert_rwthasr.py, class Questions (lines 329-332): a dict from
question name to its member phone list. -/
structure Questions where
  questions : List (String × List String)
deriving DecidableEq

/-- Questions.setInitialFinal (lines 334-341): is_initial and is_final take the
given sets, is_within collects every phone of the inventory in neither. -/
def Questions.setInitialFinal (q : Questions) (initial final all : List String) :
    Questions :=
  let qs := alSet q.questions "is_initial" initial
  let qs2 := alSet qs "is_final" final
  let boundary := setUnion initial final
  { questions := alSet qs2 "is_within" (all.filter (fun p => decide (¬ p ∈ boundary))) }

/-- Samples used to instantiate C4: two compatible samples and one whose
vector dimension disagrees. -/
def sW4 : Sample := ⟨"a", 0, ["l"], ["r"], false, false, 2, ["1", "2"], ["3", "4"]⟩

/-- Second compatible sample of the C4 witness. -/
def sW4b : Sample := ⟨"b", 1, ["l"], ["r"], false, false, 3, ["5", "6"], ["7", "8"]⟩

/-- A sample whose sum vector has the wrong length, for the C4 witness. -/
def sW4bad : Sample := ⟨"b", 1, ["l"], ["r"], false, false, 3, ["5"], ["7"]⟩

/-- One read step of SymbolTable.read for a parsed
(key, symbol) pair: store both directions. -/
def readInsert (t : SymbolTable) (p : Int × String) : SymbolTable :=
  ⟨alSet t.symbols_ p.1 p.2, alSet t.keys_ p.2 p.1⟩

/-- The symbol table of the C8 witness. -/
def tW8 : SymbolTable := ⟨[(5, "ab"), (2, "cd")], [("ab", 5), ("cd", 2)]⟩

/-- The example record of the C6 witness (boundary single-phoneme-lemma). -/
def eW6 : Example :=
  ⟨[("central", "a"), ("hmm-state", "1"), ("history[0]", "x"), ("future[0]", "y"),
    ("boundary", "single-phoneme-lemma")], 7, ["1", "2", "3", "4"], 2, 2⟩

/-- The sample that setExample builds from eW6 in word-boundary mode. -/
def sW6 : Sample := ⟨"a", 1, ["x"], ["y"], true, true, 7, ["1", "2"], ["3", "4"]⟩

end Convert

/-! Helper lemmas about the Python-structure embeddings. -/

theorem alFind_alSet_self {α β : Type} [DecidableEq α] (l : List (α × β)) (k : α) (v : β) :
    alFind (alSet l k v) k = some v := by
  induction l with
  | nil => simp [alFind, alSet]
  | cons p rest ih =>
    cases p with
    | mk a b =>
      by_cases h : a = k
      · simp [alSet, alFind, h]
      · simp [alSet, alFind, h, ih]

theorem alFind_alSet_ne {α β : Type} [DecidableEq α] (l : List (α × β)) (k k2 : α) (v : β)
    (h : k2 ≠ k) : alFind (alSet l k v) k2 = alFind l k2 := by
  induction l with
  | nil => simp [alFind, alSet, Ne.symm h]
  | cons p rest ih =>
    cases p with
    | mk a b =>
      by_cases ha : a = k
      · subst ha
        simp [alSet, alFind, Ne.symm h]
      · by_cases hb : a = k2 <;> simp [alSet, alFind, ha, hb, ih, h]

theorem alSet_of_find_none {α β : Type} [DecidableEq α] (l : List (α × β)) (k : α) (v : β)
    (h : alFind l k = none) : alSet l k v = l ++ [(k, v)] := by
  induction l with
  | nil => simp [alSet]
  | cons p rest ih =>
    cases p with
    | mk a b =>
      by_cases ha : a = k
      · simp [alFind, ha] at h
      · simp only [alFind, if_neg ha] at h
        simp [alSet, ha, ih h]

theorem alFind_eq_none_iff {α β : Type} [DecidableEq α] (l : List (α × β)) (k : α) :
    alFind l k = none ↔ k ∉ l.map Prod.fst := by
  induction l with
  | nil => simp [alFind]
  | cons p rest ih =>
    cases p with
    | mk a b =>
      by_cases ha : a = k
      · subst ha
        simp [alFind]
      · simp [alFind, ha, ih, Ne.symm ha]

theorem alFind_append_of_none {α β : Type} [DecidableEq α] (l l2 : List (α × β)) (k : α)
    (h : alFind l k = none) : alFind (l ++ l2) k = alFind l2 k := by
  induction l with
  | nil => simp
  | cons p rest ih =>
    cases p with
    | mk a b =>
      by_cases ha : a = k
      · simp [alFind, ha] at h
      · simp only [alFind, if_neg ha] at h ⊢
        simp [List.cons_append, alFind, ha, ih h]

theorem pyIdx_some_of_lt (len : Nat) (i : Int) (h0 : 0 ≤ i) (h : i < (len : Int)) :
    pyIdx len i = some i.toNat := by
  simp [pyIdx, h0, h]

theorem pyIdx_none_of_ge (len : Nat) (i : Int) (h : (len : Int) ≤ i) :
    pyIdx len i = none := by
  have h0 : 0 ≤ i := le_trans (Int.ofNat_nonneg len) h
  simp only [pyIdx, if_pos h0]
  rw [if_neg (by omega)]

theorem pyIdx_lt_of_some (len : Nat) (i : Int) (p : Nat) (h : pyIdx len i = some p) :
    p < len := by
  unfold pyIdx at h
  split_ifs at h with h0 hlt hge <;> simp at h <;> omega

theorem getD_set_self {α : Type} (l : List α) (i : Nat) (a d : α) (h : i < l.length) :
    (l.set i a).getD i d = a := by
  rw [List.getD_eq_getElem?_getD, List.getElem?_set_self (by simpa using h)]
  rfl

theorem getD_set_ne {α : Type} (l : List α) (i j : Nat) (a d : α) (h : i ≠ j) :
    (l.set i a).getD j d = l.getD j d := by
  rw [List.getD_eq_getElem?_getD, List.getElem?_set_ne h, ← List.getD_eq_getElem?_getD]

/-! Characterization of HmmStateModels.find. -/

namespace Lookup

theorem qmatch_true_iff (left right : String) (p : List String × List String) :
    qmatch left right p = true ↔
      ((left = "" ∧ right = "" ∧ p.1 = [] ∧ p.2 = []) ∨ (left ∈ p.1 ∧ right ∈ p.2)) := by
  simp [qmatch]

theorem findScan_cons_match (left right : String) (e : Int × (List String × List String))
    (rest : List (Int × (List String × List String))) (found : Int)
    (h : qmatch left right e.2 = true) :
    findScan left right found (e :: rest) =
      if found < 0 then findScan left right e.1 rest else .error .assertionError := by
  rcases (qmatch_true_iff left right e.2).1 h with h1 | h2
  · simp [findScan, h1]
  · by_cases hc : left = "" ∧ right = "" ∧ e.2.1 = [] ∧ e.2.2 = []
    · simp [findScan, hc]
    · simp [findScan, hc, h2]

theorem findScan_cons_nomatch (left right : String) (e : Int × (List String × List String))
    (rest : List (Int × (List String × List String))) (found : Int)
    (h : qmatch left right e.2 = false) :
    findScan left right found (e :: rest) = findScan left right found rest := by
  have h2 := h
  simp only [qmatch, Bool.or_eq_false_iff, decide_eq_false_iff_not] at h2
  simp [findScan, h2.1, h2.2]

theorem findScan_of_no_match (left right : String)
    (l : List (Int × (List String × List String))) (found : Int)
    (h : ∀ e ∈ l, qmatch left right e.2 = false) :
    findScan left right found l = .ok found := by
  induction l with
  | nil => rfl
  | cons e rest ih =>
    rw [findScan_cons_nomatch left right e rest found (h e (by simp))]
    exact ih (fun x hx => h x (by simp [hx]))

theorem findScan_error_of_match (left right : String)
    (l : List (Int × (List String × List String))) (found : Int) (hf : 0 ≤ found)
    (h : ∃ e ∈ l, qmatch left right e.2 = true) :
    findScan left right found l = .error .assertionError := by
  induction l with
  | nil => simp at h
  | cons e rest ih =>
    by_cases he : qmatch left right e.2 = true
    · rw [findScan_cons_match left right e rest found he]
      have : ¬ found < 0 := by omega
      simp [this]
    · rw [findScan_cons_nomatch left right e rest found (by simpa using he)]
      obtain ⟨x, hx, hxm⟩ := h
      rcases List.mem_cons.1 hx with hhx | hhx
      · exact absurd (hhx ▸ hxm) he
      · exact ih ⟨x, hhx, hxm⟩

theorem findScan_of_single_match (left right : String)
    (l : List (Int × (List String × List String))) (e : Int × (List String × List String))
    (h : l.filter (fun x => qmatch left right x.2) = [e]) (he : 0 ≤ e.1) :
    findScan left right (-1) l = .ok e.1 := by
  induction l with
  | nil => simp at h
  | cons a rest ih =>
    by_cases ha : qmatch left right a.2 = true
    · have h2 : a :: rest.filter (fun x => qmatch left right x.2) = [e] := by
        simpa [List.filter_cons, ha] using h
      injection h2 with hae hrest
      subst hae
      rw [findScan_cons_match left right a rest (-1) ha]
      simp only [show (-1 : Int) < 0 by omega, if_true]
      exact findScan_of_no_match left right rest a.1
        (fun x hx => by
          have := List.filter_eq_nil_iff.1 hrest x hx
          simpa using this)
    · rw [findScan_cons_nomatch left right a rest (-1) (by simpa using ha)]
      refine ih ?_
      simpa [List.filter_cons, ha] using h

theorem findScan_of_multi_match (left right : String)
    (l : List (Int × (List String × List String)))
    (h : 2 ≤ (l.filter (fun x => qmatch left right x.2)).length)
    (hnn : ∀ e ∈ l.filter (fun x => qmatch left right x.2), 0 ≤ e.1) :
    findScan left right (-1) l = .error .assertionError := by
  induction l with
  | nil => simp at h
  | cons a rest ih =>
    by_cases ha : qmatch left right a.2 = true
    · have hf : (a :: rest).filter (fun x => qmatch left right x.2) =
          a :: rest.filter (fun x => qmatch left right x.2) := by
        simp [List.filter_cons, ha]
      rw [hf] at h hnn
      rw [findScan_cons_match left right a rest (-1) ha]
      simp only [show (-1 : Int) < 0 by omega, if_true]
      have hlen : 0 < (rest.filter (fun x => qmatch left right x.2)).length := by
        simp only [List.length_cons] at h
        omega
      have hrest : ∃ x ∈ rest, qmatch left right x.2 = true := by
        obtain ⟨x, hx⟩ := List.exists_mem_of_length_pos hlen
        exact ⟨x, (List.mem_filter.1 hx).1, (List.mem_filter.1 hx).2⟩
      exact findScan_error_of_match left right rest a.1 (hnn a (by simp)) hrest
    · have hf : (a :: rest).filter (fun x => qmatch left right x.2) =
          rest.filter (fun x => qmatch left right x.2) := by
        simp [List.filter_cons, ha]
      rw [hf] at h hnn
      rw [findScan_cons_nomatch left right a rest (-1) (by simpa using ha)]
      exact ih h hnn

theorem findScan_append (left right : String)
    (a b : List (Int × (List String × List String))) (found : Int) :
    findScan left right found (a ++ b) =
      match findScan left right found a with
      | .ok f2 => findScan left right f2 b
      | .error e => .error e := by
  induction a generalizing found with
  | nil => simp [findScan]
  | cons e rest ih =>
    simp only [List.cons_append, findScan]
    split_ifs with h1 h2 h3 <;> simp [ih]

theorem findGroups_eq_scan (m : HmmStateModels) (left right : String) (idx : List Nat)
    (found : Int) (hv : ∀ i ∈ idx, i < m.models_.length) :
    findGroups m left right found idx =
      findScan left right found ((idx.map (fun i => m.models_.getD i [])).flatten) := by
  induction idx generalizing found with
  | nil => rfl
  | cons i rest ih =>
    simp only [List.map_cons, List.flatten_cons, findGroups, if_pos (hv i (by simp))]
    rw [findScan_append]
    cases hres : findScan left right found (m.models_.getD i []) with
    | error e => simp
    | ok f2 => simpa using ih f2 (fun j hj => hv j (by simp [hj]))

theorem find_eq_findScan (m : HmmStateModels) (left center right : String) (state : Int)
    (pos : Nat) (hpos : pyIdx m.center_idx_.length state = some pos)
    (hv : ∀ i ∈ (alFind (m.center_idx_.getD pos []) center).getD [], i < m.models_.length) :
    HmmStateModels.find m left center right state =
      findScan left right (-1) (scanList m center pos) := by
  simp only [HmmStateModels.find, hpos]
  exact findGroups_eq_scan m left right _ (-1) hv

/-! Lemmas about _addHmmIndex, _addModel and parseLogFile. -/

theorem registerCenter_length (ci : List (List (String × List Nat))) (pos idx : Nat)
    (c : String) : (registerCenter ci pos idx c).length = ci.length := by
  simp [registerCenter]

theorem padSlots_length (ci : List (List (String × List Nat))) (state : Int) :
    (padSlots ci state).length = max ci.length (state + 1).toNat := by
  unfold padSlots
  split_ifs with h
  · simp only [List.length_append, List.length_replicate]
    omega
  · omega

theorem centerLoop_length (state : Int) (idx : Nat) (cps : List String) :
    ∀ ci ci2, centerLoop state idx ci cps = .ok ci2 → ci2.length = ci.length := by
  induction cps with
  | nil =>
    intro ci ci2 h
    simp only [centerLoop] at h
    injection h with h
    rw [h]
  | cons c cs ih =>
    intro ci ci2 h
    simp only [centerLoop] at h
    cases hp : pyIdx ci.length state with
    | none => rw [hp] at h; exact absurd h (by simp)
    | some pos =>
      rw [hp] at h
      have := ih _ _ h
      rw [this, registerCenter_length]

theorem centerLoop_ok (state : Int) (idx : Nat) (cps : List String)
    (h0 : 0 ≤ state) :
    ∀ ci, state < (ci.length : Int) → ∃ ci2, centerLoop state idx ci cps = .ok ci2 := by
  induction cps with
  | nil => intro ci _; exact ⟨ci, rfl⟩
  | cons c cs ih =>
    intro ci hlt
    obtain ⟨ci2, hci2⟩ := ih (registerCenter ci state.toNat idx c)
      (by rw [registerCenter_length]; exact hlt)
    refine ⟨ci2, ?_⟩
    simp only [centerLoop, pyIdx_some_of_lt ci.length state h0 hlt]
    exact hci2

theorem registerCenter_mem_self (ci : List (List (String × List Nat))) (pos idx : Nat)
    (c : String) (hpos : pos < ci.length) :
    idx ∈ (alFind ((registerCenter ci pos idx c).getD pos []) c).getD [] := by
  unfold registerCenter
  rw [getD_set_self _ _ _ _ (by simpa using hpos)]
  simp [alFind_alSet_self]

theorem registerCenter_mem_preserve (ci : List (List (String × List Nat)))
    (pos pos2 idx idx0 : Nat) (c c2 : String)
    (h : idx0 ∈ (alFind (ci.getD pos []) c).getD []) :
    idx0 ∈ (alFind ((registerCenter ci pos2 idx c2).getD pos []) c).getD [] := by
  unfold registerCenter
  by_cases hpp : pos2 = pos
  · subst hpp
    by_cases hl : pos2 < ci.length
    · rw [getD_set_self _ _ _ _ (by simpa using hl)]
      by_cases hc : c = c2
      · subst hc
        rw [alFind_alSet_self]
        exact List.mem_append_left _ h
      · rw [alFind_alSet_ne _ _ _ _ hc]
        exact h
    · rw [List.set_eq_of_length_le (by omega)]
      exact h
  · rw [getD_set_ne _ _ _ _ _ hpp]
    exact h

theorem centerLoop_mem (state : Int) (idx : Nat) (cps : List String) :
    ∀ ci ci2 pos, centerLoop state idx ci cps = .ok ci2 →
      pyIdx ci.length state = some pos →
      (∀ c ∈ cps, idx ∈ (alFind (ci2.getD pos []) c).getD []) ∧
      (∀ c idx0, idx0 ∈ (alFind (ci.getD pos []) c).getD [] →
        idx0 ∈ (alFind (ci2.getD pos []) c).getD []) := by
  induction cps with
  | nil =>
    intro ci ci2 pos h _
    simp only [centerLoop] at h
    injection h with h
    subst h
    exact ⟨by simp, fun c idx0 hh => hh⟩
  | cons c cs ih =>
    intro ci ci2 pos h hpos
    simp only [centerLoop, hpos] at h
    have hlen : (registerCenter ci pos idx c).length = ci.length := registerCenter_length ..
    have hpos2 : pyIdx (registerCenter ci pos idx c).length state = some pos := by
      rw [hlen]; exact hpos
    obtain ⟨hmem, hpre⟩ := ih (registerCenter ci pos idx c) ci2 pos h hpos2
    have hplt : pos < ci.length := pyIdx_lt_of_some _ _ _ hpos
    constructor
    · intro c2 hc2
      rcases List.mem_cons.1 hc2 with hc2 | hc2
      · subst hc2
        exact hpre c2 idx (registerCenter_mem_self ci pos idx c2 hplt)
      · exact hmem c2 hc2
    · intro c2 idx0 h0
      exact hpre c2 idx0 (registerCenter_mem_preserve ci pos pos idx idx0 c2 c h0)

theorem addHmmIndex_ok_spec (m : HmmStateModels) (cps : List String) (state : Int)
    (m1 : HmmStateModels) (idx : Nat) (h : addHmmIndex m cps state = .ok (m1, idx)) :
    m1.center_idx_.length = max m.center_idx_.length (state + 1).toNat ∧
    m1.models_ = m.models_ ++ [[]] ∧ idx = m.models_.length ∧
    m1.model_syms_ = m.model_syms_ ∧ m1.ci_phones = m.ci_phones ∧
    m1.empty_context = m.empty_context ∧
    (∀ pos, pyIdx m1.center_idx_.length state = some pos →
      ∀ c ∈ cps, idx ∈ (alFind (m1.center_idx_.getD pos []) c).getD []) := by
  unfold addHmmIndex at h
  cases hcl : centerLoop state m.models_.length (padSlots m.center_idx_ state) cps with
  | error e => rw [hcl] at h; exact absurd h (by simp)
  | ok ci2 =>
    rw [hcl] at h
    simp only [Except.ok.injEq, Prod.mk.injEq] at h
    obtain ⟨hm1, hidx⟩ := h
    subst hm1
    have hlen : ci2.length = (padSlots m.center_idx_ state).length :=
      centerLoop_length state m.models_.length cps _ _ hcl
    refine ⟨by simp [hlen, padSlots_length], by simp, hidx.symm, by simp, by simp, by simp, ?_⟩
    intro pos hpos
    have hpos2 : pyIdx (padSlots m.center_idx_ state).length state = some pos := by
      simpa [hlen] using hpos
    have := centerLoop_mem state m.models_.length cps _ _ pos hcl hpos2
    simpa [hidx] using this.1

theorem addModel_ok_spec (m : HmmStateModels) (name : String) (ctx : List String)
    (m2 : HmmStateModels) (hok : addModel m name ctx = .ok m2) :
    ∃ ctr ds, nameMatch name.data = some (ctr, ds) ∧
      0 < m.model_syms_.find name ∧
      m2.model_syms_ = m.model_syms_ ∧ m2.ci_phones = m.ci_phones ∧
      m2.empty_context = m.empty_context ∧
      m2.center_idx_.length = max m.center_idx_.length (digitsToNat ds) ∧
      m2.models_.length = m.models_.length + 1 ∧
      m2.models_.getD m.models_.length [] =
        [(m.model_syms_.find name - 2,
          contextPair { m with center_idx_ := m2.center_idx_ }
            (pysplit (ctx.getD 0 "")) (pysplit (ctx.getD 1 "")) (pysplit (ctx.getD 2 "")))] ∧
      (1 ≤ digitsToNat ds → ∀ c ∈ pysplit (ctx.getD 1 ""),
        m.models_.length ∈ (alFind (m2.center_idx_.getD (digitsToNat ds - 1) []) c).getD []) := by
  unfold addModel at hok
  cases hnm : nameMatch name.data with
  | none => rw [hnm] at hok; exact absurd hok (by simp)
  | some g =>
    cases g with
    | mk ctr ds =>
      rw [hnm] at hok
      dsimp only at hok
      refine ⟨ctr, ds, rfl, ?_⟩
      cases hah : addHmmIndex m (pysplit (ctx.getD 1 "")) ((digitsToNat ds : Int) - 1) with
      | error e => rw [hah] at hok; exact absurd hok (by simp)
      | ok p =>
        cases p with
        | mk m1 hmm_idx =>
          rw [hah] at hok
          dsimp only at hok
          obtain ⟨hclen, hmodels, hidx, hsyms, hci, hec, hmem⟩ :=
            addHmmIndex_ok_spec m _ _ m1 hmm_idx hah
          by_cases hkey : m1.model_syms_.find name ≤ 0
          · rw [if_pos hkey] at hok; exact absurd hok (by simp)
          · rw [if_neg hkey] at hok
            have hkey2 : 0 < m.model_syms_.find name := by
              rw [hsyms] at hkey; omega
            have hplen : m1.models_.length = m.models_.length + 1 := by
              simp [hmodels]
            have hpy : pyIdx m1.models_.length (hmm_idx : Int) = some hmm_idx := by
              apply pyIdx_some_of_lt
              · positivity
              · rw [hplen]; omega
            rw [hpy] at hok
            simp only [Except.ok.injEq] at hok
            subst hok
            have hstate1 : ((digitsToNat ds : Int) - 1 + 1).toNat = digitsToNat ds := by omega
            refine ⟨hkey2, by simpa using hsyms, by simpa using hci, by simpa using hec,
              by simpa [hstate1] using hclen, ?_, ?_, ?_⟩
            · simp [hplen, hidx]
            · have hget : m1.models_.getD hmm_idx [] = [] := by
                rw [hmodels, hidx]
                simp [List.getD_eq_getElem?_getD]
              rw [hidx]
              simp only []
              rw [List.getD_eq_getElem?_getD, List.getElem?_set_self (by omega)]
              rw [← hidx, hget]
              simp only [alSet, Option.getD_some]
              have hcp : contextPair m1 (pysplit (ctx.getD 0 "")) (pysplit (ctx.getD 1 ""))
                  (pysplit (ctx.getD 2 "")) =
                  contextPair { m with center_idx_ := m1.center_idx_ }
                    (pysplit (ctx.getD 0 "")) (pysplit (ctx.getD 1 "")) (pysplit (ctx.getD 2 "")) := by
                unfold contextPair
                rw [hci, hec]
              rw [hsyms, hcp]
            · intro hds c hc
              have hpos : pyIdx m1.center_idx_.length ((digitsToNat ds : Int) - 1) =
                  some (digitsToNat ds - 1) := by
                have : (digitsToNat ds - 1 : Int) < (m1.center_idx_.length : Int) := by
                  rw [hclen]; omega
                rw [pyIdx_some_of_lt _ _ (by omega) this]
                congr 1
                omega
              have := hmem (digitsToNat ds - 1) hpos c hc
              rw [hidx] at this
              simpa using this

theorem addModel_assert (m : HmmStateModels) (name : String) (ctx : List String)
    (ctr ds : List Char) (hm : nameMatch name.data = some (ctr, ds))
    (h1 : 1 ≤ digitsToNat ds) (hkey : m.model_syms_.find name ≤ 0) :
    addModel m name ctx = .error .assertionError := by
  obtain ⟨ci2, hci2⟩ := centerLoop_ok ((digitsToNat ds : Int) - 1) m.models_.length
    (pysplit (ctx.getD 1 "")) (by omega)
    (padSlots m.center_idx_ ((digitsToNat ds : Int) - 1))
    (by rw [padSlots_length]; omega)
  unfold addModel addHmmIndex
  rw [hm]
  dsimp only
  rw [hci2]
  dsimp only
  rw [if_pos hkey]

theorem parseLogFile_length (lines : List (String × List (Int × String))) :
    ∀ m m2, parseLogFile m lines = .ok m2 →
      m2.center_idx_.length =
        lines.foldl (fun a l => max a (lineStateCount l.1)) m.center_idx_.length := by
  induction lines with
  | nil =>
    intro m m2 h
    simp only [parseLogFile] at h
    injection h with h
    rw [← h]
    rfl
  | cons line rest ih =>
    intro m m2 h
    cases line with
    | mk name groups =>
      simp only [parseLogFile] at h
      split_ifs at h with hc
      · cases ham : addModel m name (groups.map Prod.snd) with
        | error e => rw [ham] at h; exact absurd h (by simp)
        | ok m3 =>
          rw [ham] at h
          obtain ⟨ctr, ds, hnm, _, _, _, _, hclen, _, _, _⟩ :=
            addModel_ok_spec m _ _ m3 ham
          have hrec := ih m3 m2 h
          rw [hrec, List.foldl_cons]
          have hlsc : lineStateCount name = digitsToNat ds := by
            simp [lineStateCount, hnm]
          rw [hlsc, ← hclen]

theorem pySubset_true_iff (a b : List String) :
    pySubset a b = true ↔ ∀ x ∈ a, x ∈ b := by
  simp [pySubset]

/-! The claims about scripts/lookuptable.py. -/

/-- C1 (amended): for every query (left, center, right, state) with a valid
state slot on a built HmmStateModels whose stored local model indices are all
nonnegative (every referenced state-symbol key at least 2), find returns the
local index of the unique matching model among the candidate groups indexed
under (state, center), or -1 if none matches, where a model matches either
because its context sets and the query symbols are all empty, or because the
query symbols are members of the respective context sets; and if two distinct
models both match one query, find fails with an assertion error instead of
returning an index.  (The nonnegativity premise is needed: a model stored at
local index -1, from a symbol key of 1, leaves the duplicate detector unarmed,
see the counterexample.) -/
theorem claim1_find_matching (m : HmmStateModels) (left center right : String)
    (state : Int) (pos : Nat)
    (hpos : pyIdx m.center_idx_.length state = some pos)
    (hv : ∀ i ∈ (alFind (m.center_idx_.getD pos []) center).getD [], i < m.models_.length)
    (hnn : ∀ e ∈ scanList m center pos, 0 ≤ e.1) :
    ((scanList m center pos).filter (fun x => qmatch left right x.2) = [] →
      HmmStateModels.find m left center right state = .ok (-1)) ∧
    (∀ e, (scanList m center pos).filter (fun x => qmatch left right x.2) = [e] →
      HmmStateModels.find m left center right state = .ok e.1) ∧
    (2 ≤ ((scanList m center pos).filter (fun x => qmatch left right x.2)).length →
      HmmStateModels.find m left center right state = .error .assertionError) := by
  refine ⟨?_, ?_, ?_⟩
  · intro h
    rw [find_eq_findScan m left center right state pos hpos hv]
    exact findScan_of_no_match _ _ _ _ (fun x hx => by
      have := List.filter_eq_nil_iff.1 h x hx
      simpa using this)
  · intro e he
    rw [find_eq_findScan m left center right state pos hpos hv]
    refine findScan_of_single_match _ _ _ e he (hnn e ?_)
    have : e ∈ (scanList m center pos).filter (fun x => qmatch left right x.2) := by
      rw [he]; simp
    exact List.mem_of_mem_filter this
  · intro h2
    rw [find_eq_findScan m left center right state pos hpos hv]
    exact findScan_of_multi_match _ _ _ h2
      (fun x hx => hnn x (List.mem_of_mem_filter hx))

/-- C1 witness: on a concrete table with one model under (0, c), the matching
query returns its index 0 and a non-matching query returns -1. -/
theorem claim1_witness :
    HmmStateModels.find mW1 "x" "c" "y" 0 = .ok 0 ∧
    HmmStateModels.find mW1 "q" "c" "y" 0 = .ok (-1) := by
  have h := claim1_find_matching mW1 "x" "c" "y" 0 0 (by decide) (by decide) (by decide)
  have h2 := claim1_find_matching mW1 "q" "c" "y" 0 0 (by decide) (by decide) (by decide)
  exact ⟨h.2.1 (0, (["x"], ["y"])) (by decide), h2.1 (by decide)⟩

/-- C1 counterexample: on this built HmmStateModels two distinct models (local
indices -1 and 1) both match the query (x, c, y, 0), yet find returns index 1
instead of failing with an assertion error: the first match sets found to -1,
which the assert found < 0 of the second match accepts. -/
theorem claim1_counterexample :
    buildModels tblX1 [] "si" logX1 = .ok mX1 ∧
    ((scanList mX1 "c" 0).filter (fun x => qmatch "x" "y" x.2)).length = 2 ∧
    HmmStateModels.find mX1 "x" "c" "y" 0 = .ok 1 := by
  refine ⟨by decide, by decide, by decide⟩

/-- C2: when HmmStateModels parses a state-log line, if every phone of the left
(resp. right) context group is a member of the configured CI-phone set, the
stored left (resp. right) context set is replaced by the single-element
empty-context set; and if every phone of the center group is in the CI-phone
set, both stored context sets become empty sets regardless of the side rule. -/
theorem claim2_ci_collapsing (m : HmmStateModels) (name : String) (ctx : List String)
    (e : String) (hec : m.empty_context = [e]) (m2 : HmmStateModels)
    (hok : addModel m name ctx = .ok m2) :
    ∃ pr, m2.models_.getD m.models_.length [] = [(m.model_syms_.find name - 2, pr)] ∧
      ((∀ p ∈ pysplit (ctx.getD 1 ""), p ∈ m.ci_phones) → pr = ([], [])) ∧
      (¬ (∀ p ∈ pysplit (ctx.getD 1 ""), p ∈ m.ci_phones) →
        ((∀ p ∈ pysplit (ctx.getD 0 ""), p ∈ m.ci_phones) → pr.1 = [e]) ∧
        ((∀ p ∈ pysplit (ctx.getD 2 ""), p ∈ m.ci_phones) → pr.2 = [e])) := by
  obtain ⟨ctr, ds, hnm, hkey, hsyms, hci, hec2, hclen, hmlen, hstore, hmem⟩ :=
    addModel_ok_spec m name ctx m2 hok
  refine ⟨_, hstore, ?_, ?_⟩
  · intro hcg
    unfold contextPair
    rw [if_pos ((pySubset_true_iff _ _).2 hcg)]
  · intro hcg
    have hcg2 : ¬ pySubset (pysplit (ctx.getD 1 "")) m.ci_phones = true := by
      rw [pySubset_true_iff]; exact hcg
    constructor
    · intro hlg
      unfold contextPair
      rw [if_neg hcg2]
      simp only [if_pos ((pySubset_true_iff _ _).2 hlg)]
      exact hec
    · intro hrg
      unfold contextPair
      rw [if_neg hcg2]
      simp only [if_pos ((pySubset_true_iff _ _).2 hrg)]
      exact hec

/-- C2 witness: on the spec scenario (line a_1.0, context si / a / si, with si
context independent) the stored model pair collapses both sides to the
single-element empty-context set [si]. -/
theorem claim2_witness :
    addModel mW2 "a_1.0" ["si", "a", "si"] = .ok mW2r ∧
    ∃ pr, mW2r.models_.getD mW2.models_.length [] =
        [(mW2.model_syms_.find "a_1.0" - 2, pr)] ∧
      ((∀ p ∈ pysplit (["si", "a", "si"].getD 1 ""), p ∈ mW2.ci_phones) → pr = ([], [])) ∧
      (¬ (∀ p ∈ pysplit (["si", "a", "si"].getD 1 ""), p ∈ mW2.ci_phones) →
        ((∀ p ∈ pysplit (["si", "a", "si"].getD 0 ""), p ∈ mW2.ci_phones) → pr.1 = ["si"]) ∧
        ((∀ p ∈ pysplit (["si", "a", "si"].getD 2 ""), p ∈ mW2.ci_phones) → pr.2 = ["si"])) :=
  ⟨by decide, claim2_ci_collapsing mW2 "a_1.0" ["si", "a", "si"] "si" rfl mW2r (by decide)⟩

/-- C3: for every state-log line whose state name matches the grammar
center_n.suffix (n the 1-based state given by name_re), the entry is indexed
under HMM state n-1 with the trailing suffix discarded, and the entry's local
model index is the state symbol table's key for the full name minus 2; a name
whose key is not strictly positive causes a fatal assertion. -/
theorem claim3_state_name_indexing (m : HmmStateModels) (name : String)
    (ctx : List String) (ctr ds : List Char)
    (hnm : nameMatch name.data = some (ctr, ds)) (h1 : 1 ≤ digitsToNat ds) :
    (m.model_syms_.find name ≤ 0 → addModel m name ctx = .error .assertionError) ∧
    (∀ m2, addModel m name ctx = .ok m2 →
      digitsToNat ds - 1 < m2.center_idx_.length ∧
      (∀ c ∈ pysplit (ctx.getD 1 ""),
        m.models_.length ∈ (alFind (m2.center_idx_.getD (digitsToNat ds - 1) []) c).getD []) ∧
      ∃ pr, m2.models_.getD m.models_.length [] = [(m.model_syms_.find name - 2, pr)]) := by
  constructor
  · exact fun hkey => addModel_assert m name ctx ctr ds hnm h1 hkey
  · intro m2 hok
    obtain ⟨ctr2, ds2, hnm2, hkey, hsyms, hci, hec2, hclen, hmlen, hstore, hmem⟩ :=
      addModel_ok_spec m name ctx m2 hok
    rw [hnm] at hnm2
    injection hnm2 with hp
    have hds : ds2 = ds := (congrArg Prod.snd hp).symm
    subst hds
    refine ⟨?_, hmem h1, ⟨_, hstore⟩⟩
    rw [hclen]
    omega

/-- C3 witness: the concrete line a_1.0 is indexed under state 0 with local
model index 3 - 2 = 1, and the same name aborts with an assertion error when
the symbol table has no positive key for it. -/
theorem claim3_witness :
    addModel mW3 "a_1.0" ["si", "a", "si"] = .error .assertionError ∧
    (digitsToNat ['1'] - 1 < mW2r.center_idx_.length ∧
      (∀ c ∈ pysplit (["si", "a", "si"].getD 1 ""),
        mW2.models_.length ∈
          (alFind (mW2r.center_idx_.getD (digitsToNat ['1'] - 1) []) c).getD []) ∧
      ∃ pr, mW2r.models_.getD mW2.models_.length [] =
        [(mW2.model_syms_.find "a_1.0" - 2, pr)]) := by
  constructor
  · exact (claim3_state_name_indexing mW3 "a_1.0" ["si", "a", "si"] ['a'] ['1']
      (by decide) (by decide)).1 (by decide)
  · exact (claim3_state_name_indexing mW2 "a_1.0" ["si", "a", "si"] ['a'] ['1']
      (by decide) (by decide)).2 mW2r (by decide)

/-- C10: find indexes the per-state table with no bounds check: the number of
state slots created while parsing the log is the maximum 1-based state number
seen (the maximum 0-based state plus one), and every query whose state is at
least that raises an out-of-range indexing error instead of returning -1, so
such a descriptor aborts the pipeline-B loop iteration with an exception
instead of being skipped with a warning. -/
theorem claim10_state_out_of_range (tbl : SymbolTable) (ci : List String) (ec : String)
    (log : List (String × List (Int × String))) (m : HmmStateModels)
    (hok : buildModels tbl ci ec log = .ok m) :
    m.center_idx_.length = log.foldl (fun a l => max a (lineStateCount l.1)) 0 ∧
    (∀ left center right (state : Int), (m.center_idx_.length : Int) ≤ state →
      HmmStateModels.find m left center right state = .error .indexError) ∧
    (∀ line a ciL, (m.center_idx_.length : Int) ≤ a.state →
      processLine m ciL line a = .error .indexError) := by
  refine ⟨?_, ?_, ?_⟩
  · have := parseLogFile_length log _ m hok
    simpa using this
  · intro l c r state hs
    simp [HmmStateModels.find, pyIdx_none_of_ge _ _ hs]
  · intro line a ciL hs
    simp [processLine, HmmStateModels.find, pyIdx_none_of_ge _ _ hs]

/-- C10 witness: a one-line log creates one state slot, and a query or
descriptor with state 5 raises IndexError instead of returning -1. -/
theorem claim10_witness :
    mw10.center_idx_.length = 1 ∧
    HmmStateModels.find mw10 "" "a" "" 5 = .error .indexError ∧
    processLine mw10 [] "x" ⟨"a", ["x", "y"], 5, false, false⟩ = .error .indexError := by
  have h := claim10_state_out_of_range ⟨[("a_1.0", 3)]⟩ [] "si"
    [("a_1.0", [(-1, "x"), (0, "a"), (1, "y")])] mw10 (by decide)
  exact ⟨by decide, h.2.1 "" "a" "" 5 (by decide),
    h.2.2 "x" ⟨"a", ["x", "y"], 5, false, false⟩ [] (by decide)⟩

/-- C5 (amended): in the pipeline-B main loop, when the first lookup misses and
the descriptor carries an initial or final flag, exactly one retry is made with
the unmarked center phone and the same left/right symbols as the first attempt;
these equal the descriptor's original contexts exactly when the center phone is
not context independent, and are the empty symbol otherwise.  A descriptor with
no match after this policy produces no line on standard output, only the
warning and then the error on standard error, and a matched descriptor produces
exactly the original line followed by a space and the resolved model index. -/
theorem claim5_retry_policy (models : HmmStateModels) (ci_phones : List String)
    (line : String) (a : AllophoneState) (l c r : String)
    (hl : l = if a.center ∈ ci_phones then "" else a.context.getD 0 "")
    (hc : c = if a.center ∈ ci_phones then a.center else a.phoneSymbol)
    (hr : r = if a.center ∈ ci_phones then "" else a.context.getD 1 "")
    (m1 : Int) (h1 : HmmStateModels.find models l c r a.state = .ok m1) :
    (0 ≤ m1 → processLine models ci_phones line a =
      .ok ⟨[(l, c, r, a.state)], [], some (line ++ " " ++ pyIntRepr m1)⟩) ∧
    (m1 < 0 → a.initial = false → a.final = false →
      processLine models ci_phones line a =
        .ok ⟨[(l, c, r, a.state)],
             ["[WARNING] not found: " ++ line, "[ERROR] cannot map " ++ line], none⟩) ∧
    (m1 < 0 → (a.initial = true ∨ a.final = true) →
      ∀ m2 : Int, HmmStateModels.find models l a.center r a.state = .ok m2 →
        (m2 < 0 → processLine models ci_phones line a =
          .ok ⟨[(l, c, r, a.state), (l, a.center, r, a.state)],
               ["[WARNING] not found: " ++ line, "[ERROR] cannot map " ++ line], none⟩) ∧
        (0 ≤ m2 → processLine models ci_phones line a =
          .ok ⟨[(l, c, r, a.state), (l, a.center, r, a.state)],
               ["[WARNING] not found: " ++ line], some (line ++ " " ++ pyIntRepr m2)⟩)) := by
  subst hl
  subst hc
  subst hr
  refine ⟨?_, ?_, ?_⟩
  · intro hm1
    simp only [processLine, h1]
    rw [if_neg (by omega)]
  · intro hm1 hi hf
    simp only [processLine, h1]
    rw [if_pos hm1]
    simp [hi, hf]
  · intro hm1 hb m2 h2
    have hbb : (a.initial || a.final) = true := by
      rcases hb with hb | hb <;> simp [hb]
    constructor
    · intro hm2
      simp only [processLine, h1, h2, hbb]
      rw [if_pos hm1]
      simp only [if_true]
      rw [if_pos hm2]
    · intro hm2
      simp only [processLine, h1, h2, hbb]
      rw [if_pos hm1]
      simp only [if_true]
      rw [if_neg (by omega)]

/-- C5 witness: on a concrete model table the marked center a@i misses, the
descriptor is marked initial, and the single retry with the unmarked center a
and the same contexts x / y matches model 1, which is printed after the line. -/
theorem claim5_witness :
    processLine mW5 [] "a\x7bx+y\x7d@i.0" aW5 =
      .ok ⟨[("x", "a@i", "y", 0), ("x", "a", "y", 0)],
           ["[WARNING] not found: " ++ "a\x7bx+y\x7d@i.0"],
           some ("a\x7bx+y\x7d@i.0" ++ " " ++ pyIntRepr 1)⟩ := by
  have h := claim5_retry_policy mW5 [] "a\x7bx+y\x7d@i.0" aW5 "x" "a@i" "y"
    (by decide) (by decide) (by decide) (-1) (by decide)
  have h2 := (h.2.2 (by decide) (Or.inl (by decide)) 1 (by decide)).2 (by decide)
  exact h2

/-- C5 counterexample: for a context-independent center phone si the first
query uses the empty left/right symbols, and on a miss with the initial flag
set the retry again uses the empty symbols, not the descriptor's original
contexts a / b: both recorded calls have left symbol "", although the
descriptor's original left context is "a". -/
theorem claim5_counterexample :
    buildModels tblX5 ["si"] "si" logX5 = .ok mX5 ∧
    processLine mX5 ["si"] "si\x7ba+b\x7d@i.0" aX5 =
      .ok ⟨[("", "si", "", 0), ("", "si", "", 0)],
           ["[WARNING] not found: si\x7ba+b\x7d@i.0",
            "[ERROR] cannot map si\x7ba+b\x7d@i.0"], none⟩ ∧
    aX5.context.getD 0 "" = "a" ∧ ("" : String) ≠ "a" := by
  exact ⟨by decide, by decide, by decide, by decide⟩

end Lookup

namespace Convert

theorem checkDims_ok_iff (l : List Sample) (dim nl nr : Nat) :
    checkDims l dim nl nr = .ok () ↔
      ∀ s ∈ l, s.sum.length = dim ∧ s.left_context.length = nl ∧
        s.right_context.length = nr := by
  induction l with
  | nil => simp [checkDims]
  | cons s rest ih =>
    unfold checkDims
    split_ifs with h1 h2 h3
    · rw [ih]
      constructor
      · intro h x hx
        rcases List.mem_cons.1 hx with hx | hx
        · subst hx; exact ⟨h1, h2, h3⟩
        · exact h x hx
      · intro h x hx
        exact h x (by simp [hx])
    · constructor
      · intro h; exact absurd h (by simp)
      · intro h; exact absurd ((h s (by simp)).2.2) h3
    · constructor
      · intro h; exact absurd h (by simp)
      · intro h; exact absurd ((h s (by simp)).2.1) h2
    · constructor
      · intro h; exact absurd h (by simp)
      · intro h; exact absurd ((h s (by simp)).1) h1

theorem checkDims_result (l : List Sample) (dim nl nr : Nat) :
    checkDims l dim nl nr = .ok () ∨ checkDims l dim nl nr = .error .assertionError := by
  induction l with
  | nil => exact Or.inl rfl
  | cons s rest ih =>
    unfold checkDims
    split_ifs with h1 h2 h3
    · exact ih
    · exact Or.inr rfl
    · exact Or.inr rfl
    · exact Or.inr rfl

theorem checkDims_error_of_not (l : List Sample) (dim nl nr : Nat)
    (h : ¬ ∀ s ∈ l, s.sum.length = dim ∧ s.left_context.length = nl ∧
      s.right_context.length = nr) :
    checkDims l dim nl nr = .error .assertionError := by
  rcases checkDims_result l dim nl nr with hr | hr
  · exact absurd ((checkDims_ok_iff l dim nl nr).1 hr) h
  · exact hr

/-- C4: Samples.write emits the header line 1 dim nl nr where dim, nl, nr are
the sum-vector length and left/right context list lengths of the first sample,
followed by exactly one line per sample of the collection, each of which has
those three lengths; and if any sample disagrees in any of the three lengths,
the assertion is raised while computing the global properties, before the
output file is opened, so no output at all is written (the write embedding
returns the error instead of any lines). -/
theorem claim4_write_global (S : Samples) (s0 : Sample) (rest : List Sample)
    (hS : S.samples = s0 :: rest) :
    ((∀ s ∈ S.samples, s.sum.length = s0.sum.length ∧
        s.left_context.length = s0.left_context.length ∧
        s.right_context.length = s0.right_context.length) →
      Samples.write S = .ok (("1 " ++ pyIntRepr (s0.sum.length : Int) ++ " " ++
        pyIntRepr (s0.left_context.length : Int) ++ " " ++
        pyIntRepr (s0.right_context.length : Int)) ::
          S.samples.map Samples.writeSample)) ∧
    ((¬ ∀ s ∈ S.samples, s.sum.length = s0.sum.length ∧
        s.left_context.length = s0.left_context.length ∧
        s.right_context.length = s0.right_context.length) →
      Samples.write S = .error .assertionError) := by
  constructor
  · intro hall
    rw [hS] at hall
    unfold Samples.write Samples.getGlobalProperties
    rw [hS]
    dsimp only
    rw [(checkDims_ok_iff (s0 :: rest) _ _ _).2 hall]
  · intro hbad
    rw [hS] at hbad
    unfold Samples.write Samples.getGlobalProperties
    rw [hS]
    dsimp only
    rw [checkDims_error_of_not (s0 :: rest) _ _ _ hbad]

/-- C4 witness: two compatible samples produce the header 1 2 1 1 followed by
one line per sample; replacing the second sample by one with a short sum
vector yields the assertion error and no output lines. -/
theorem claim4_witness :
    Samples.write ⟨[sW4, sW4b], false⟩ =
      .ok (("1 " ++ pyIntRepr (sW4.sum.length : Int) ++ " " ++
        pyIntRepr (sW4.left_context.length : Int) ++ " " ++
        pyIntRepr (sW4.right_context.length : Int)) ::
          [sW4, sW4b].map Samples.writeSample) ∧
    Samples.write ⟨[sW4, sW4bad], false⟩ = .error .assertionError := by
  constructor
  · exact (claim4_write_global ⟨[sW4, sW4b], false⟩ sW4 [sW4b] rfl).1 (by decide)
  · exact (claim4_write_global ⟨[sW4, sW4bad], false⟩ sW4 [sW4bad] rfl).2 (by decide)

theorem setData_flags (s : Sample) (nobs ncol nrow : Int) (data : List String)
    (s2 : Sample) (h : Sample.setData s nobs ncol nrow data = .ok s2) :
    s2.initial = s.initial ∧ s2.final = s.final := by
  unfold Sample.setData at h
  dsimp only at h
  split_ifs at h with h1 h2 h3
  · injection h with h
    subst h
    exact ⟨rfl, rfl⟩

/-- C6: when word-boundary mode is enabled, Samples.setExample sets the
appended sample's flags from the boundary property: begin-of-lemma sets only
initial, end-of-lemma sets only final, single-phoneme-lemma sets both, and any
other value leaves both false; with word-boundary mode disabled both flags are
always false. -/
theorem claim6_boundary_flags (S : Samples) (e : Example) (S2 : Samples)
    (hok : Samples.setExample S e = .ok S2) :
    ∃ smp, S2.samples = S.samples ++ [smp] ∧
      (S.use_word_boundary = false → smp.initial = false ∧ smp.final = false) ∧
      (S.use_word_boundary = true → ∀ b, getProp e "boundary" = .ok b →
        (b = "begin-of-lemma" → smp.initial = true ∧ smp.final = false) ∧
        (b = "end-of-lemma" → smp.initial = false ∧ smp.final = true) ∧
        (b = "single-phoneme-lemma" → smp.initial = true ∧ smp.final = true) ∧
        (b ≠ "begin-of-lemma" → b ≠ "end-of-lemma" → b ≠ "single-phoneme-lemma" →
          smp.initial = false ∧ smp.final = false)) := by
  unfold Samples.setExample at hok
  cases h1 : getProp e "central" with
  | error er => rw [h1] at hok; exact absurd hok (by simp)
  | ok central =>
  rw [h1] at hok
  dsimp only at hok
  cases h2 : getProp e "hmm-state" with
  | error er => rw [h2] at hok; exact absurd hok (by simp)
  | ok hmmstate =>
  rw [h2] at hok
  dsimp only at hok
  cases h3 : pyInt hmmstate with
  | error er => rw [h3] at hok; exact absurd hok (by simp)
  | ok st =>
  rw [h3] at hok
  dsimp only at hok
  cases h4 : getProp e "history[0]" with
  | error er => rw [h4] at hok; exact absurd hok (by simp)
  | ok hist =>
  rw [h4] at hok
  dsimp only at hok
  cases h5 : getProp e "future[0]" with
  | error er => rw [h5] at hok; exact absurd hok (by simp)
  | ok fut =>
  rw [h5] at hok
  dsimp only at hok
  cases hwb : S.use_word_boundary with
  | false =>
    rw [hwb] at hok
    simp only [Bool.false_eq_true, if_false] at hok
    cases hsd : Sample.setData ⟨central, st, [hist], [fut], false, false, 0, [], []⟩
        e.nobs e.ncol e.nrows e.data with
    | error er => rw [hsd] at hok; exact absurd hok (by simp)
    | ok s3 =>
      rw [hsd] at hok
      injection hok with hok
      have hflags := setData_flags _ _ _ _ _ _ hsd
      refine ⟨s3, by rw [← hok], ?_, ?_⟩
      · intro _
        exact ⟨hflags.1, hflags.2⟩
      · intro htrue
        exact absurd htrue (by simp)
  | true =>
    rw [hwb] at hok
    simp only [if_true] at hok
    cases hb : getProp e "boundary" with
    | error er => rw [hb] at hok; exact absurd hok (by simp)
    | ok b =>
    rw [hb] at hok
    dsimp only at hok
    cases hsd : Sample.setData
        (if b = "begin-of-lemma" then
          { (⟨central, st, [hist], [fut], false, false, 0, [], []⟩ : Sample) with
            initial := true }
        else if b = "end-of-lemma" then
          { (⟨central, st, [hist], [fut], false, false, 0, [], []⟩ : Sample) with
            final := true }
        else if b = "single-phoneme-lemma" then
          { (⟨central, st, [hist], [fut], false, false, 0, [], []⟩ : Sample) with
            initial := true
            final := true }
        else ⟨central, st, [hist], [fut], false, false, 0, [], []⟩)
        e.nobs e.ncol e.nrows e.data with
    | error er => rw [hsd] at hok; exact absurd hok (by simp)
    | ok s3 =>
      rw [hsd] at hok
      injection hok with hok
      have hflags := setData_flags _ _ _ _ _ _ hsd
      refine ⟨s3, by rw [← hok], ?_, ?_⟩
      · intro hfalse
        exact absurd hfalse (by simp)
      · intro _ b2 hb2
        injection hb2 with hb2
        subst hb2
        refine ⟨?_, ?_, ?_, ?_⟩
        · intro hbe
          subst hbe
          rw [hflags.1, hflags.2]
          simp
        · intro hbe
          subst hbe
          rw [hflags.1, hflags.2]
          simp
        · intro hbe
          subst hbe
          rw [hflags.1, hflags.2]
          simp
        · intro hn1 hn2 hn3
          rw [hflags.1, hflags.2]
          simp [hn1, hn2, hn3]

/-- C6 witness: on a concrete example whose boundary property is
single-phoneme-lemma, with word-boundary mode enabled, the appended sample has
both flags true. -/
theorem claim6_witness :
    ∃ smp, (⟨[sW6], true⟩ : Samples).samples = ([] : List Sample) ++ [smp] ∧
      smp.initial = true ∧ smp.final = true := by
  obtain ⟨smp, hs, _, hwb⟩ :=
    claim6_boundary_flags ⟨[], true⟩ eW6 ⟨[sW6], true⟩ (by decide)
  have h3 := (hwb rfl "single-phoneme-lemma" (by decide)).2.2.1 rfl
  exact ⟨smp, hs, h3.1, h3.2⟩

/-! Lemmas about SymbolConverter.setSymbols and the derived sets. -/

theorem mem_setAdd (l : List String) (s y : String) :
    y ∈ setAdd l s ↔ y ∈ l ∨ y = s := by
  unfold setAdd
  split_ifs with h
  · constructor
    · exact Or.inl
    · rintro (hy | rfl)
      · exact hy
      · exact h
  · simp

theorem mem_setUnion (b : List String) : ∀ (a : List String) (y : String),
    y ∈ setUnion a b ↔ y ∈ a ∨ y ∈ b := by
  induction b with
  | nil => intro a y; simp [setUnion]
  | cons x xs ih =>
    intro a y
    have hstep : setUnion a (x :: xs) = setUnion (setAdd a x) xs := rfl
    rw [hstep, ih, mem_setAdd, List.mem_cons, or_assoc]

theorem charsSub_single (c : Char) : ∀ l : List Char, charsSub [c] l = true ↔ c ∈ l
  | [] => by simp [charsSub]
  | b :: bs => by
    simp [charsSub, charsPre, charsSub_single c bs, List.mem_cons]

theorem takeWhile_ne_at (l : List Char) :
    (l.takeWhile (fun ch => decide (ch ≠ '@')) = l) ↔ ('@' ∉ l) := by
  induction l with
  | nil => simp
  | cons b bs ih =>
    by_cases hb : b = '@'
    · subst hb
      simp [List.takeWhile]
    · simp [List.takeWhile, hb, ih, Ne.symm hb]
      constructor
      · intro h hmem
        exact h '@' hmem rfl
      · intro h x hx hxe
        exact h (hxe ▸ hx)

theorem basePhone_ne_iff (s : String) :
    basePhoneOf s ≠ s ↔ strContains "@" s = true := by
  obtain ⟨d⟩ := s
  unfold basePhoneOf strContains
  have hat : ("@" : String).data = ['@'] := rfl
  rw [hat, charsSub_single]
  constructor
  · intro h
    by_contra hmem
    exact h (congrArg String.mk ((takeWhile_ne_at d).2 hmem))
  · intro hmem heq
    have hd : (d.takeWhile (fun ch => decide (ch ≠ '@'))) = d := by
      injection heq
    exact absurd hmem (by simpa using (takeWhile_ne_at d).1 hd)

theorem step_initial (c : SymbolConverter) (x : String) :
    (setSymbolsStep c x).initial_phones =
      if strContains "@i" x then setAdd c.initial_phones x else c.initial_phones := by
  unfold setSymbolsStep
  dsimp only
  split_ifs <;> rfl

theorem step_final (c : SymbolConverter) (x : String) :
    (setSymbolsStep c x).final_phones =
      if strContains "@f" x then setAdd c.final_phones x else c.final_phones := by
  unfold setSymbolsStep
  dsimp only
  split_ifs <;> rfl

theorem step_classes (c : SymbolConverter) (x : String) :
    (setSymbolsStep c x).phone_classes =
      if basePhoneOf x ≠ x then classAppend c.phone_classes (basePhoneOf x) x
      else c.phone_classes := by
  unfold setSymbolsStep
  dsimp only
  split_ifs <;> rfl

theorem setSymbols_initial_mem : ∀ (syms : List String) (c : SymbolConverter) (s : String),
    s ∈ (syms.foldl setSymbolsStep c).initial_phones ↔
      s ∈ c.initial_phones ∨ (s ∈ syms ∧ strContains "@i" s = true)
  | [], c, s => by simp
  | x :: xs, c, s => by
    rw [List.foldl_cons, setSymbols_initial_mem xs (setSymbolsStep c x) s, step_initial]
    by_cases hx : strContains "@i" x = true
    · rw [if_pos hx, mem_setAdd]
      constructor
      · rintro ((h | rfl) | ⟨h1, h2⟩)
        · exact Or.inl h
        · exact Or.inr ⟨List.mem_cons_self _ _, hx⟩
        · exact Or.inr ⟨List.mem_cons_of_mem _ h1, h2⟩
      · rintro (h | ⟨h1, h2⟩)
        · exact Or.inl (Or.inl h)
        · rcases List.mem_cons.1 h1 with rfl | h1
          · exact Or.inl (Or.inr rfl)
          · exact Or.inr ⟨h1, h2⟩
    · rw [if_neg hx]
      constructor
      · rintro (h | ⟨h1, h2⟩)
        · exact Or.inl h
        · exact Or.inr ⟨List.mem_cons_of_mem _ h1, h2⟩
      · rintro (h | ⟨h1, h2⟩)
        · exact Or.inl h
        · rcases List.mem_cons.1 h1 with rfl | h1
          · exact absurd h2 hx
          · exact Or.inr ⟨h1, h2⟩

theorem setSymbols_final_mem : ∀ (syms : List String) (c : SymbolConverter) (s : String),
    s ∈ (syms.foldl setSymbolsStep c).final_phones ↔
      s ∈ c.final_phones ∨ (s ∈ syms ∧ strContains "@f" s = true)
  | [], c, s => by simp
  | x :: xs, c, s => by
    rw [List.foldl_cons, setSymbols_final_mem xs (setSymbolsStep c x) s, step_final]
    by_cases hx : strContains "@f" x = true
    · rw [if_pos hx, mem_setAdd]
      constructor
      · rintro ((h | rfl) | ⟨h1, h2⟩)
        · exact Or.inl h
        · exact Or.inr ⟨List.mem_cons_self _ _, hx⟩
        · exact Or.inr ⟨List.mem_cons_of_mem _ h1, h2⟩
      · rintro (h | ⟨h1, h2⟩)
        · exact Or.inl (Or.inl h)
        · rcases List.mem_cons.1 h1 with rfl | h1
          · exact Or.inl (Or.inr rfl)
          · exact Or.inr ⟨h1, h2⟩
    · rw [if_neg hx]
      constructor
      · rintro (h | ⟨h1, h2⟩)
        · exact Or.inl h
        · exact Or.inr ⟨List.mem_cons_of_mem _ h1, h2⟩
      · rintro (h | ⟨h1, h2⟩)
        · exact Or.inl h
        · rcases List.mem_cons.1 h1 with rfl | h1
          · exact absurd h2 hx
          · exact Or.inr ⟨h1, h2⟩

theorem classMem_classAppend (t : List (String × List String)) (k0 s0 k s : String) :
    classMem (classAppend t k0 s0) k s ↔ classMem t k s ∨ (k = k0 ∧ s = s0) := by
  by_cases hk : k = k0
  · subst hk
    unfold classMem classAppend
    rw [alFind_alSet_self]
    cases hf : alFind t k with
    | none => simp [hf]
    | some l0 => simp [hf, List.mem_append]
  · unfold classMem classAppend
    rw [alFind_alSet_ne _ _ _ _ hk]
    simp [hk]

theorem setSymbols_classes_mem : ∀ (syms : List String) (c : SymbolConverter) (k s : String),
    classMem (syms.foldl setSymbolsStep c).phone_classes k s ↔
      classMem c.phone_classes k s ∨
        (s ∈ syms ∧ strContains "@" s = true ∧ k = basePhoneOf s)
  | [], c, k, s => by simp
  | x :: xs, c, k, s => by
    rw [List.foldl_cons, setSymbols_classes_mem xs (setSymbolsStep c x) k s, step_classes]
    by_cases hx : basePhoneOf x ≠ x
    · rw [if_pos hx, classMem_classAppend]
      have hx2 : strContains "@" x = true := (basePhone_ne_iff x).1 hx
      constructor
      · rintro ((h | ⟨hkb, rfl⟩) | ⟨h1, h2, h3⟩)
        · exact Or.inl h
        · exact Or.inr ⟨List.mem_cons_self _ _, hx2, hkb⟩
        · exact Or.inr ⟨List.mem_cons_of_mem _ h1, h2, h3⟩
      · rintro (h | ⟨h1, h2, h3⟩)
        · exact Or.inl (Or.inl h)
        · rcases List.mem_cons.1 h1 with rfl | h1
          · exact Or.inl (Or.inr ⟨h3, rfl⟩)
          · exact Or.inr ⟨h1, h2, h3⟩
    · rw [if_neg hx]
      constructor
      · rintro (h | ⟨h1, h2, h3⟩)
        · exact Or.inl h
        · exact Or.inr ⟨List.mem_cons_of_mem _ h1, h2, h3⟩
      · rintro (h | ⟨h1, h2, h3⟩)
        · exact Or.inl h
        · rcases List.mem_cons.1 h1 with rfl | h1
          · exact absurd ((basePhone_ne_iff s).2 h2) hx
          · exact Or.inr ⟨h1, h2, h3⟩

/-- C7: SymbolConverter.setSymbols puts a symbol into the initial-phone set
exactly when it contains the substring at-i, into the final-phone set exactly
when it contains at-f, and records every symbol containing an at-sign in the
phone-class map under the prefix before the first at-sign; symbols without an
at-sign get no phone-class entry.  On the symbol set a, a-at-i, a-at-f, b the
phone classes are a maps-to [a-at-i, a-at-f], the initial set is the singleton
a-at-i and the final set is the singleton a-at-f. -/
theorem claim7_symbol_scan (syms : List String) :
    (∀ s, s ∈ (SymbolConverter.init.setSymbols syms).initial_phones ↔
      (s ∈ syms ∧ strContains "@i" s = true)) ∧
    (∀ s, s ∈ (SymbolConverter.init.setSymbols syms).final_phones ↔
      (s ∈ syms ∧ strContains "@f" s = true)) ∧
    (∀ k s, classMem (SymbolConverter.init.setSymbols syms).phone_classes k s ↔
      (s ∈ syms ∧ strContains "@" s = true ∧ k = basePhoneOf s)) ∧
    (SymbolConverter.init.setSymbols ["a", "a@i", "a@f", "b"]).initial_phones = ["a@i"] ∧
    (SymbolConverter.init.setSymbols ["a", "a@i", "a@f", "b"]).final_phones = ["a@f"] ∧
    (SymbolConverter.init.setSymbols ["a", "a@i", "a@f", "b"]).phone_classes =
      [("a", ["a@i", "a@f"])] := by
  refine ⟨?_, ?_, ?_, by decide, by decide, by decide⟩
  · intro s
    have h := setSymbols_initial_mem syms SymbolConverter.init s
    simpa [SymbolConverter.init] using h
  · intro s
    have h := setSymbols_final_mem syms SymbolConverter.init s
    simpa [SymbolConverter.init] using h
  · intro k s
    have h := setSymbols_classes_mem syms SymbolConverter.init k s
    simpa [SymbolConverter.init, classMem, alFind] using h

/-- C7 witness: on the concrete symbol set, a-at-i is in the initial set while
the marker-free symbol b is not, and a-at-f is recorded under base phone a. -/
theorem claim7_witness :
    "a@i" ∈ (SymbolConverter.init.setSymbols ["a", "a@i", "a@f", "b"]).initial_phones ∧
    ¬ "b" ∈ (SymbolConverter.init.setSymbols ["a", "a@i", "a@f", "b"]).initial_phones ∧
    classMem (SymbolConverter.init.setSymbols ["a", "a@i", "a@f", "b"]).phone_classes
      "a" "a@f" := by
  refine ⟨?_, ?_, ?_⟩
  · exact ((claim7_symbol_scan ["a", "a@i", "a@f", "b"]).1 "a@i").2 ⟨by decide, by decide⟩
  · intro h
    have := ((claim7_symbol_scan ["a", "a@i", "a@f", "b"]).1 "b").1 h
    exact absurd this.2 (by decide)
  · exact ((claim7_symbol_scan ["a", "a@i", "a@f", "b"]).2.2.1 "a" "a@f").2
      ⟨by decide, by decide, by decide⟩

/-- C9: enabling word-boundary mode via setUseWordBoundary adds every
configured context-independent phone to both the initial-phone set and the
final-phone set; consequently those phones appear in the written initial/final
phone list files and in the derived is_initial/is_final questions, and are
excluded from is_within, even when they carry no at-i / at-f marker. -/
theorem claim9_wb_ci_phones (syms non_wb all : List String) (p : String)
    (hp : p ∈ non_wb) :
    p ∈ ((SymbolConverter.init.setSymbols syms).setUseWordBoundary true non_wb).initial_phones ∧
    p ∈ ((SymbolConverter.init.setSymbols syms).setUseWordBoundary true non_wb).final_phones ∧
    p ∈ ((SymbolConverter.init.setSymbols syms).setUseWordBoundary true non_wb).writeInitialPhones ∧
    p ∈ ((SymbolConverter.init.setSymbols syms).setUseWordBoundary true non_wb).writeFinalPhones ∧
    (∀ l, alFind (Questions.setInitialFinal ⟨[]⟩
        ((SymbolConverter.init.setSymbols syms).setUseWordBoundary true non_wb).initial_phones
        ((SymbolConverter.init.setSymbols syms).setUseWordBoundary true non_wb).final_phones
        all).questions "is_initial" = some l → p ∈ l) ∧
    (∀ l, alFind (Questions.setInitialFinal ⟨[]⟩
        ((SymbolConverter.init.setSymbols syms).setUseWordBoundary true non_wb).initial_phones
        ((SymbolConverter.init.setSymbols syms).setUseWordBoundary true non_wb).final_phones
        all).questions "is_final" = some l → p ∈ l) ∧
    (∀ l, alFind (Questions.setInitialFinal ⟨[]⟩
        ((SymbolConverter.init.setSymbols syms).setUseWordBoundary true non_wb).initial_phones
        ((SymbolConverter.init.setSymbols syms).setUseWordBoundary true non_wb).final_phones
        all).questions "is_within" = some l → ¬ p ∈ l) := by
  have hin : p ∈ ((SymbolConverter.init.setSymbols syms).setUseWordBoundary true
      non_wb).initial_phones := by
    unfold SymbolConverter.setUseWordBoundary
    exact (mem_setUnion non_wb _ p).2 (Or.inr hp)
  have hfn : p ∈ ((SymbolConverter.init.setSymbols syms).setUseWordBoundary true
      non_wb).final_phones := by
    unfold SymbolConverter.setUseWordBoundary
    exact (mem_setUnion non_wb _ p).2 (Or.inr hp)
  refine ⟨hin, hfn, hin, hfn, ?_, ?_, ?_⟩
  · intro l hl
    simp [Questions.setInitialFinal, alSet, alFind] at hl
    rw [← hl]
    exact hin
  · intro l hl
    simp [Questions.setInitialFinal, alSet, alFind] at hl
    rw [← hl]
    exact hfn
  · intro l hl hpl
    simp [Questions.setInitialFinal, alSet, alFind] at hl
    rw [← hl] at hpl
    have h2 := (List.mem_filter.1 hpl).2
    have h3 : ¬ p ∈ setUnion
        ((SymbolConverter.init.setSymbols syms).setUseWordBoundary true non_wb).initial_phones
        ((SymbolConverter.init.setSymbols syms).setUseWordBoundary true non_wb).final_phones := by
      simpa using h2
    exact h3 ((mem_setUnion _ _ _).2 (Or.inl hin))

/-- C9 witness: the marker-free context-independent phone si ends up in both
boundary sets, both written phone lists, both boundary questions, and not in
is_within. -/
theorem claim9_witness :
    "si" ∈ ((SymbolConverter.init.setSymbols ["a", "a@i"]).setUseWordBoundary true
      ["si"]).initial_phones ∧
    "si" ∈ ((SymbolConverter.init.setSymbols ["a", "a@i"]).setUseWordBoundary true
      ["si"]).writeFinalPhones ∧
    (∀ l, alFind (Questions.setInitialFinal ⟨[]⟩
        ((SymbolConverter.init.setSymbols ["a", "a@i"]).setUseWordBoundary true
          ["si"]).initial_phones
        ((SymbolConverter.init.setSymbols ["a", "a@i"]).setUseWordBoundary true
          ["si"]).final_phones
        ["a", "si"]).questions "is_within" = some l → ¬ "si" ∈ l) := by
  have h := claim9_wb_ci_phones ["a", "a@i"] ["si"] ["a", "si"] "si" (by decide)
  exact ⟨h.1, h.2.2.2.1, h.2.2.2.2.2.2⟩

/-! Lemmas for the SymbolTable write/read round trip. -/

theorem digitChar_lt10 (d : Nat) (h : d < 10) :
    digitVal (digitChar d) = d ∧ (digitChar d).isDigit = true ∧
    (digitChar d).isWhitespace = false ∧ digitChar d ≠ '-' := by
  interval_cases d <;> exact ⟨by decide, by decide, by decide, by decide⟩

theorem natDigitsAux_zero (f : Nat) : natDigitsAux f 0 = [] := by
  cases f <;> rfl

theorem natDigitsAux_spec : ∀ f n : Nat, 0 < n → n ≤ f →
    natDigitsAux f n ≠ [] ∧
    (∀ c ∈ natDigitsAux f n, c.isDigit = true ∧ c.isWhitespace = false ∧ c ≠ '-') ∧
    (natDigitsAux f n).foldr (fun c a => 10 * a + digitVal c) 0 = n
  | 0, n, hn, hf => by omega
  | f + 1, 0, hn, _ => by omega
  | f + 1, n + 1, _, hf => by
    have hr : (n + 1) % 10 < 10 := Nat.mod_lt _ (by omega)
    obtain ⟨hv, hd, hw, hm⟩ := digitChar_lt10 _ hr
    by_cases hq : (n + 1) / 10 = 0
    · have hone : natDigitsAux (f + 1) (n + 1) = [digitChar ((n + 1) % 10)] := by
        show digitChar ((n + 1) % 10) :: natDigitsAux f ((n + 1) / 10) = _
        rw [hq, natDigitsAux_zero]
      rw [hone]
      refine ⟨by simp, ?_, ?_⟩
      · intro c hc
        rw [List.mem_singleton] at hc
        subst hc
        exact ⟨hd, hw, hm⟩
      · simp only [List.foldr_cons, List.foldr_nil, hv]
        omega
    · have hq1 : 0 < (n + 1) / 10 := Nat.pos_of_ne_zero hq
      have hq2 : (n + 1) / 10 ≤ f := by
        have := Nat.div_lt_self (show 0 < n + 1 by omega) (show 1 < 10 by omega)
        omega
      obtain ⟨hne, hmem, hval⟩ := natDigitsAux_spec f ((n + 1) / 10) hq1 hq2
      have hstep : natDigitsAux (f + 1) (n + 1) =
          digitChar ((n + 1) % 10) :: natDigitsAux f ((n + 1) / 10) := rfl
      rw [hstep]
      refine ⟨by simp, ?_, ?_⟩
      · intro c hc
        rcases List.mem_cons.1 hc with rfl | hc
        · exact ⟨hd, hw, hm⟩
        · exact hmem c hc
      · simp only [List.foldr_cons, hval, hv]
        omega

theorem pyNatRepr_spec (n : Nat) :
    (pyNatRepr n).data ≠ [] ∧
    (∀ c ∈ (pyNatRepr n).data, c.isDigit = true ∧ c.isWhitespace = false ∧ c ≠ '-') ∧
    parseNat (pyNatRepr n).data = some n := by
  by_cases h : n = 0
  · subst h
    refine ⟨by decide, ?_, by decide⟩
    intro c hc
    rw [show (pyNatRepr 0).data = ['0'] from by decide] at hc
    have hc0 : c = '0' := by simpa using hc
    subst hc0
    exact ⟨by decide, by decide, by decide⟩
  · obtain ⟨hne, hmem, hval⟩ := natDigitsAux_spec n n (by omega) (le_refl n)
    have hdata : (pyNatRepr n).data = (natDigitsAux n n).reverse := by
      unfold pyNatRepr
      rw [if_neg h]
    rw [hdata]
    have hne2 : (natDigitsAux n n).reverse ≠ [] := by simpa using hne
    refine ⟨hne2, ?_, ?_⟩
    · intro c hc
      exact hmem c (List.mem_reverse.1 hc)
    · have h1 : ¬ ((natDigitsAux n n).reverse.isEmpty = true) := by
        rw [List.isEmpty_iff]
        exact hne2
      have h2 : ((natDigitsAux n n).reverse.all Char.isDigit) = true := by
        rw [List.all_eq_true]
        intro c hc
        exact (hmem c (List.mem_reverse.1 hc)).1
      unfold parseNat
      rw [if_neg h1, if_pos h2]
      congr 1
      rw [List.foldl_reverse]
      exact hval

theorem pyIntRepr_token (k : Int) :
    (pyIntRepr k).data ≠ [] ∧ ∀ c ∈ (pyIntRepr k).data, c.isWhitespace = false := by
  unfold pyIntRepr
  split_ifs with hneg
  · refine ⟨by simp, ?_⟩
    intro c hc
    rcases List.mem_cons.1 hc with rfl | hc2
    · decide
    · exact ((pyNatRepr_spec k.natAbs).2.1 c hc2).2.1
  · exact ⟨(pyNatRepr_spec k.toNat).1,
      fun c hc => ((pyNatRepr_spec k.toNat).2.1 c hc).2.1⟩

theorem pyInt_pyIntRepr (k : Int) : pyInt (pyIntRepr k) = .ok k := by
  rcases lt_or_le k 0 with hneg | hpos
  · have hrepr : pyIntRepr k = ⟨'-' :: (pyNatRepr k.natAbs).data⟩ := by
      unfold pyIntRepr
      rw [if_pos hneg]
    rw [hrepr]
    have hstep : pyInt ⟨'-' :: (pyNatRepr k.natAbs).data⟩ =
        (match parseNat (pyNatRepr k.natAbs).data with
          | some n => Except.ok (-(n : Int))
          | none => Except.error PyErr.valueError) := rfl
    rw [hstep, (pyNatRepr_spec k.natAbs).2.2]
    show (Except.ok (-(k.natAbs : Int)) : Except PyErr Int) = .ok k
    rw [show -((k.natAbs : Int)) = k by omega]
  · have hrepr : pyIntRepr k = pyNatRepr k.toNat := by
      unfold pyIntRepr
      rw [if_neg (by omega)]
    rw [hrepr]
    obtain ⟨hne, hmem, hp⟩ := pyNatRepr_spec k.toNat
    unfold pyInt
    split
    · rename_i rest heq
      exfalso
      have hmemneg : '-' ∈ (pyNatRepr k.toNat).data := by
        rw [heq]
        exact List.mem_cons_self _ _
      exact (hmem '-' hmemneg).2.2 rfl
    · rw [hp]
      show (Except.ok ((k.toNat : Nat) : Int) : Except PyErr Int) = .ok k
      rw [show ((k.toNat : Nat) : Int) = k by omega]

theorem strData_append (a b : String) : (a ++ b).data = a.data ++ b.data := by
  obtain ⟨la⟩ := a
  obtain ⟨lb⟩ := b
  rfl

theorem wordsAux_nonws : ∀ w : List Char, (∀ c ∈ w, c.isWhitespace = false) →
    ∀ l cur : List Char, wordsAux (w ++ l) cur = wordsAux l (w.reverse ++ cur)
  | [], _, l, cur => by simp
  | c :: ws, hw, l, cur => by
    have hc : c.isWhitespace = false := hw c (by simp)
    have hstep : wordsAux ((c :: ws) ++ l) cur = wordsAux (ws ++ l) (c :: cur) := by
      simp [wordsAux, hc]
    rw [hstep, wordsAux_nonws ws (fun x hx => hw x (by simp [hx])) l (c :: cur)]
    simp [List.reverse_cons, List.append_assoc]

theorem wordsAux_word (w : List Char) (hne : w ≠ [])
    (hw : ∀ c ∈ w, c.isWhitespace = false) : wordsAux w [] = [w] := by
  have h := wordsAux_nonws w hw [] []
  rw [List.append_nil] at h
  rw [h]
  have hcur : (w.reverse ++ []).isEmpty = false := by
    simp [List.isEmpty_iff, hne]
  simp [wordsAux, hcur, hne]

theorem pysplit_pair (v s : String) (hv1 : v.data ≠ [])
    (hv2 : ∀ c ∈ v.data, c.isWhitespace = false) (hs1 : s.data ≠ [])
    (hs2 : ∀ c ∈ s.data, c.isWhitespace = false) :
    pysplit (v ++ " " ++ s) = [v, s] := by
  obtain ⟨dv⟩ := v
  obtain ⟨ds⟩ := s
  unfold pysplit
  have hdata : ((⟨dv⟩ : String) ++ " " ++ ⟨ds⟩).data = dv ++ ' ' :: ds := by
    rw [strData_append, strData_append]
    simp [List.append_assoc]
  rw [hdata, wordsAux_nonws dv hv2 (' ' :: ds) []]
  have hsp : (' ').isWhitespace = true := by decide
  have hcur : (dv.reverse ++ []).isEmpty = false := by
    simp [List.isEmpty_iff, hv1]
  have hstep : wordsAux (' ' :: ds) (dv.reverse ++ []) =
      (dv.reverse ++ []).reverse :: wordsAux ds [] := by
    simp [wordsAux, hsp, hcur, show dv ≠ [] from hv1]
  rw [hstep, wordsAux_word ds hs1 hs2]
  simp

theorem read_map_lines (entries : List (Int × String)) :
    ∀ t0 : SymbolTable,
      (∀ p ∈ entries, p.1 ≠ (0 : Int)) →
      (∀ p ∈ entries, p.2.data ≠ [] ∧ ∀ c ∈ p.2.data, c.isWhitespace = false) →
      SymbolTable.read t0 (entries.map (fun p => p.2 ++ " " ++ pyIntRepr p.1)) =
        .ok (entries.foldl readInsert t0) := by
  induction entries with
  | nil => intro t0 _ _; rfl
  | cons q rest ih =>
    intro t0 h0 htok
    obtain ⟨k, v⟩ := q
    have hv := htok (k, v) (by simp)
    have hrtok := pyIntRepr_token k
    have hsplit : pysplit (v ++ " " ++ pyIntRepr k) = [v, pyIntRepr k] :=
      pysplit_pair v (pyIntRepr k) hv.1 hv.2 hrtok.1 hrtok.2
    simp only [List.map_cons, SymbolTable.read, hsplit]
    rw [pyInt_pyIntRepr k]
    dsimp only
    rw [if_neg (h0 (k, v) (by simp))]
    exact ih _ (fun p hp => h0 p (by simp [hp])) (fun p hp => htok p (by simp [hp]))

theorem foldl_insert_symbols (entries : List (Int × String)) :
    ∀ t0 : SymbolTable,
      (∀ p ∈ entries, alFind t0.symbols_ p.1 = none) →
      (entries.map Prod.fst).Nodup →
      (entries.foldl readInsert t0).symbols_ = t0.symbols_ ++ entries := by
  induction entries with
  | nil => intro t0 _ _; simp
  | cons q rest ih =>
    intro t0 hfresh hnd
    obtain ⟨k, v⟩ := q
    have hset : alSet t0.symbols_ k v = t0.symbols_ ++ [(k, v)] :=
      alSet_of_find_none _ _ _ (hfresh (k, v) (by simp))
    have hnd2 : (rest.map Prod.fst).Nodup := by
      simp only [List.map_cons, List.nodup_cons] at hnd
      exact hnd.2
    have hfresh2 : ∀ p ∈ rest, alFind (readInsert t0 (k, v)).symbols_ p.1 = none := by
      intro p hp
      show alFind (alSet t0.symbols_ k v) p.1 = none
      rw [hset, alFind_append_of_none _ _ _ (hfresh p (by simp [hp]))]
      have hne : p.1 ≠ k := by
        simp only [List.map_cons, List.nodup_cons] at hnd
        intro hkk
        exact hnd.1 (hkk ▸ List.mem_map.2 ⟨p, hp, rfl⟩)
      simp [alFind, Ne.symm hne]
    rw [List.foldl_cons, ih (readInsert t0 (k, v)) hfresh2 hnd2]
    show alSet t0.symbols_ k v ++ rest = t0.symbols_ ++ (k, v) :: rest
    rw [hset]
    simp

theorem foldl_keys_lookup (entries : List (Int × String)) :
    ∀ (t0 : SymbolTable) (s : String) (k : Int),
      alFind (entries.foldl readInsert t0).keys_ s = some k →
      alFind t0.keys_ s = some k ∨ (k, s) ∈ entries := by
  induction entries with
  | nil => intro t0 s k h; exact Or.inl h
  | cons q rest ih =>
    intro t0 s k h
    obtain ⟨k0, v0⟩ := q
    rw [List.foldl_cons] at h
    rcases ih _ s k h with h2 | h2
    · by_cases hs : s = v0
      · subst hs
        rw [show (readInsert t0 (k0, s)).keys_ = alSet t0.keys_ s k0 from rfl,
          alFind_alSet_self] at h2
        injection h2 with h2
        exact Or.inr (by simp [← h2])
      · rw [show (readInsert t0 (k0, v0)).keys_ = alSet t0.keys_ v0 k0 from rfl,
          alFind_alSet_ne _ _ _ _ hs] at h2
        exact Or.inl h2
    · exact Or.inr (by simp [h2])

theorem foldl_keys_some (entries : List (Int × String)) :
    ∀ (t0 : SymbolTable) (s : String),
      alFind t0.keys_ s ≠ none →
      alFind (entries.foldl readInsert t0).keys_ s ≠ none := by
  induction entries with
  | nil => intro t0 s h; exact h
  | cons q rest ih =>
    intro t0 s h
    obtain ⟨k0, v0⟩ := q
    rw [List.foldl_cons]
    apply ih
    show alFind (alSet t0.keys_ v0 k0) s ≠ none
    by_cases hs : s = v0
    · subst hs
      rw [alFind_alSet_self]
      simp
    · rw [alFind_alSet_ne _ _ _ _ hs]
      exact h

theorem foldl_keys_mem (entries : List (Int × String)) :
    ∀ (t0 : SymbolTable) (p : Int × String), p ∈ entries →
      alFind (entries.foldl readInsert t0).keys_ p.2 ≠ none := by
  induction entries with
  | nil => intro t0 p h; simp at h
  | cons q rest ih =>
    intro t0 p hp
    obtain ⟨k0, v0⟩ := q
    rw [List.foldl_cons]
    rcases List.mem_cons.1 hp with rfl | hp2
    · apply foldl_keys_some
      show alFind (alSet t0.keys_ v0 k0) v0 ≠ none
      rw [alFind_alSet_self]
      simp
    · exact ih _ p hp2

/-- C8 (amended): for every SymbolTable whose stored entries all have nonzero
keys and whose symbols are nonempty and contain no whitespace, writing it with
write and reading the written lines back into a fresh table yields the same
symbol-to-key mapping: the stored entries are reproduced exactly, every
symbol-to-key binding of the read table comes from a stored entry and every
stored symbol is bound, and key 0 (the .eps entry emitted by write) is never
read back.  (The whitespace restriction is needed: a symbol with a space
breaks the line format, see the counterexample.) -/
theorem claim8_roundtrip (t : SymbolTable)
    (hnd : (t.symbols_.map Prod.fst).Nodup)
    (h0 : ∀ p ∈ t.symbols_, p.1 ≠ (0 : Int))
    (htok : ∀ p ∈ t.symbols_, p.2.data ≠ [] ∧ ∀ c ∈ p.2.data, c.isWhitespace = false) :
    ∃ t2, SymbolTable.read ⟨[], []⟩ t.write = .ok t2 ∧
      t2.symbols_ = t.symbols_ ∧
      alFind t2.symbols_ (0 : Int) = none ∧
      (∀ s k, alFind t2.keys_ s = some k → (k, s) ∈ t.symbols_) ∧
      (∀ p ∈ t.symbols_, alFind t2.keys_ p.2 ≠ none) := by
  have heps : pysplit ".eps 0" = [".eps", "0"] := by decide
  have hread : SymbolTable.read ⟨[], []⟩ t.write = .ok (t.symbols_.foldl readInsert ⟨[], []⟩) := by
    unfold SymbolTable.write
    simp only [SymbolTable.read, heps]
    rw [show pyInt "0" = .ok 0 from by decide]
    dsimp only
    rw [if_pos rfl]
    exact read_map_lines t.symbols_ ⟨[], []⟩ h0 htok
  have hsym : (t.symbols_.foldl readInsert ⟨[], []⟩).symbols_ = t.symbols_ := by
    have h := foldl_insert_symbols t.symbols_ ⟨[], []⟩ (fun p _ => rfl) hnd
    simpa using h
  refine ⟨_, hread, hsym, ?_, ?_, ?_⟩
  · rw [hsym, alFind_eq_none_iff]
    intro hmem
    obtain ⟨p, hp, hp2⟩ := List.mem_map.1 hmem
    exact h0 p hp hp2
  · intro s k h
    rcases foldl_keys_lookup t.symbols_ ⟨[], []⟩ s k h with h2 | h2
    · exact absurd h2 (by simp [alFind])
    · exact h2
  · intro p hp
    exact foldl_keys_mem t.symbols_ ⟨[], []⟩ p hp

/-- C8 witness: a concrete two-entry table with whitespace-free symbols and
nonzero keys round trips exactly. -/
theorem claim8_witness :
    ∃ t2, SymbolTable.read ⟨[], []⟩ tW8.write = .ok t2 ∧
      t2.symbols_ = tW8.symbols_ ∧
      alFind t2.symbols_ (0 : Int) = none ∧
      (∀ s k, alFind t2.keys_ s = some k → (k, s) ∈ tW8.symbols_) ∧
      (∀ p ∈ tW8.symbols_, alFind t2.keys_ p.2 ≠ none) :=
  claim8_roundtrip tW8 (by decide) (by decide) (by decide)

/-- C8 counterexample: the claim fails as stated for arbitrary symbols: the
table storing symbol "a b" under the nonzero key 5 writes the line "a b 5",
whose three whitespace tokens make read fail with a ValueError, so reading
back does not reproduce the mapping at all. -/
theorem claim8_counterexample :
    SymbolTable.read ⟨[], []⟩ (SymbolTable.write ⟨[(5, "a b")], [("a b", 5)]⟩) =
      .error .valueError ∧ (5 : Int) ≠ 0 := by
  exact ⟨by decide, by decide⟩

end Convert

end Trainc
